import Mathlib

/-!
Verification development for the ComfyUI-OneAPI request pipeline.

The embedding models, directly from the source files:
  * `workflow_format.py`  : the graph format classifier,
  * `workflow_ui_2_api.py`: the interactive-to-linear converter,
  * `oneapi.py`           : marker parsing, parameter binding, media upload,
                            output registration, and the wait loop with its
                            artifact aggregation.

JSON values are modelled by `JVal`; Python dicts are association lists that
keep insertion order; fallible Python code (raised exceptions and runtime
type errors) returns `Except Err`.  String operations are implemented over
character lists so that every definition evaluates by kernel reduction.
-/

/-- JSON-like values: the data model of workflows, parameters and poll
responses.  Numbers are modelled as integers (no behaviour settled here
depends on fractional values); object entries keep insertion order exactly as
Python dicts do. -/
inductive JVal where
  | null
  | bool (b : Bool)
  | num (n : Int)
  | str (s : String)
  | arr (items : List JVal)
  | obj (entries : List (String × JVal))

/-- Lookup in a Python dict (first matching key; JSON-parsed dicts have
unique keys). -/
def alookup {α : Type} : List (String × α) → String → Option α
  | [], _ => none
  | (k, v) :: rest, key => if k = key then some v else alookup rest key

/-- Python dict assignment `d[k] = v`: an existing key keeps its position,
a new key is appended at the end. -/
def aset {α : Type} : List (String × α) → String → α → List (String × α)
  | [], key, v => [(key, v)]
  | (k, w) :: rest, key, v =>
      if k = key then (k, v) :: rest else (k, w) :: aset rest key v

/-- Python truthiness of a JSON value (`if x:`). -/
def truthy : JVal → Bool
  | .null => false
  | .bool b => b
  | .num n => n != 0
  | .str s => s ≠ ""
  | .arr xs => !xs.isEmpty
  | .obj kvs => !kvs.isEmpty

/-! ### String helpers

Python string operations, implemented over `String.data` with structural
recursion so that concrete instances reduce inside the kernel.  They model
CPython behaviour on the ASCII strings this plugin manipulates. -/

/-- Python `str.strip()` (ASCII whitespace). -/
def pyStrip (s : String) : String :=
  String.mk (((s.data.dropWhile Char.isWhitespace).reverse.dropWhile
    Char.isWhitespace).reverse)

/-- Helper for single-character `str.split`. -/
def splitCharAux (sep : Char) : List Char → List Char → List String
  | [], acc => [String.mk acc.reverse]
  | c :: cs, acc =>
      if c = sep then String.mk acc.reverse :: splitCharAux sep cs []
      else splitCharAux sep cs (c :: acc)

/-- Python `s.split(sep)` for a one-character separator. -/
def pySplitChar (s : String) (sep : Char) : List String :=
  splitCharAux sep s.data []

/-- Python `c in s` for a single character. -/
def pyContainsChar (s : String) (c : Char) : Bool := s.data.contains c

/-- Helper for `str.split(sep, 1)`. -/
def splitDot1Aux : List Char → List Char → String × String
  | [], acc => (String.mk acc.reverse, "")
  | c :: cs, acc =>
      if c = '.' then (String.mk acc.reverse, String.mk cs)
      else splitDot1Aux cs (c :: acc)

/-- Python `s.split(sep, 1)` for separator `.`, as the pair of the part
before the first dot and the part after it (the second component is only
meaningful when the string contains a dot). -/
def pySplitDot1 (s : String) : String × String := splitDot1Aux s.data []

/-- Boolean prefix test on character lists. -/
def prefixOfChars : List Char → List Char → Bool
  | [], _ => true
  | _ :: _, [] => false
  | p :: ps, c :: cs => p = c && prefixOfChars ps cs

/-- Python `s.startswith(p)`. -/
def pyStartsWith (s p : String) : Bool := prefixOfChars p.data s.data

/-- Python `s[1:]`. -/
def pyDropFirst (s : String) : String := String.mk (s.data.drop 1)

/-- Python `s.lower()` (ASCII). -/
def pyLower (s : String) : String := String.mk (s.data.map Char.toLower)

/-- Python `sep.join(xs)`. -/
def pyJoin (sep : String) : List String → String
  | [] => ""
  | [x] => x
  | x :: y :: xs => x ++ sep ++ pyJoin sep (y :: xs)

/-- Python `str.isdigit`, for the ASCII strings node ids are drawn from,
where it coincides with testing for decimal digits. -/
def pyIsDigit (s : String) : Bool := (!s.data.isEmpty) && s.data.all Char.isDigit

/-- The extension part of CPython `os.path.splitext` (POSIX separators): the
suffix of the last path component starting at its last dot, provided some
non-dot character of the component precedes that dot. -/
def pySplitextExt (s : String) : String :=
  let base := (pySplitChar s '/').getLastD ""
  let parts := pySplitChar base '.'
  match parts with
  | [] => ""
  | [_] => ""
  | _ =>
      if (parts.dropLast).all (fun p => p = "") then ""
      else "." ++ parts.getLastD ""

mutual
/-- Python `str()` of a parsed-JSON value.  Scalar cases follow CPython;
container rendering abbreviates the repr-quoting CPython applies to parsed
containers (no settled claim evaluates `str()` on a container). -/
def pyStr : JVal → String
  | .null => "None"
  | .bool true => "True"
  | .bool false => "False"
  | .num n => toString n
  | .str s => s
  | .arr xs => "[" ++ pyJoin ", " (pyStrList xs) ++ "]"
  | .obj kvs => "\x7b" ++ pyJoin ", " (pyStrEnts kvs) ++ "\x7d"
def pyStrList : List JVal → List String
  | [] => []
  | x :: xs => pyStr x :: pyStrList xs
def pyStrEnts : List (String × JVal) → List String
  | [] => []
  | (k, v) :: kvs => (k ++ ": " ++ pyStr v) :: pyStrEnts kvs
end

/-! ### Graph format classification (`workflow_format.py`) -/

/-- The three labels of `adjust_workflow_format`. -/
inductive WorkflowFormat where
  | ui
  | api
  | invalid
deriving Repr, DecidableEq

/-- `adjust_workflow_format` from `workflow_format.py` (the copy in
`workflow_ui_2_api.py` is semantically identical): `ui` when key `nodes`
holds a list, else `api` when the mapping is non-empty with all-digit string
keys, else `invalid`; any non-mapping is `invalid`. -/
def adjust_workflow_format (w : JVal) : WorkflowFormat :=
  match w with
  | .obj kvs =>
      match alookup kvs "nodes" with
      | some (.arr _) => .ui
      | _ =>
          if kvs.all (fun kv => pyIsDigit kv.1) && !kvs.isEmpty then .api
          else .invalid
  | _ => .invalid

/-- The classifier condition for the interactive (`ui`) label: a mapping
containing key `nodes` whose value is a sequence. -/
def uiCond (w : JVal) : Prop :=
  ∃ kvs xs, w = .obj kvs ∧ alookup kvs "nodes" = some (.arr xs)

/-- The classifier condition for the linear (`api`) label: a non-empty
mapping whose every key is a digit string. -/
def apiCond (w : JVal) : Prop :=
  ∃ kvs, w = .obj kvs ∧ kvs ≠ [] ∧ ∀ p ∈ kvs, pyIsDigit p.1 = true

theorem alookup_mem {α : Type} {kvs : List (String × α)} {k : String} {v : α}
    (h : alookup kvs k = some v) : (k, v) ∈ kvs := by
  induction kvs with
  | nil => simp [alookup] at h
  | cons p rest ih =>
      obtain ⟨k0, v0⟩ := p
      unfold alookup at h
      by_cases hk : k0 = k
      · subst hk
        simp at h
        subst h
        exact List.mem_cons_self _ _
      · rw [if_neg hk] at h
        exact List.mem_cons_of_mem _ (ih h)

theorem adjust_workflow_format_obj (kvs : List (String × JVal)) :
    adjust_workflow_format (.obj kvs) =
      (match alookup kvs "nodes" with
       | some (.arr _) => WorkflowFormat.ui
       | _ =>
           if kvs.all (fun kv => pyIsDigit kv.1) && !kvs.isEmpty
           then WorkflowFormat.api else WorkflowFormat.invalid) := rfl

theorem pyIsDigit_nodes_false : pyIsDigit "nodes" = false := by decide

/-- C3: graph classification is total and exclusive; `ui` iff the input is a
mapping whose key `nodes` holds a sequence; `api` iff it is a non-empty
mapping with all-digit-string keys; everything else (every non-mapping and
the empty mapping) is `invalid`, and a graph with `nodes` a list is never
`api`. -/
theorem adjust_workflow_format_total_exclusive (w : JVal) :
    (adjust_workflow_format w = .ui ∨ adjust_workflow_format w = .api ∨
       adjust_workflow_format w = .invalid) ∧
    (adjust_workflow_format w = .ui ↔ uiCond w) ∧
    (adjust_workflow_format w = .api ↔ apiCond w) ∧
    (adjust_workflow_format w = .invalid ↔ ¬ uiCond w ∧ ¬ apiCond w) ∧
    ¬ (uiCond w ∧ apiCond w) ∧
    ((∀ kvs, w ≠ .obj kvs) → adjust_workflow_format w = .invalid) ∧
    (w = .obj [] → adjust_workflow_format w = .invalid) ∧
    (uiCond w → adjust_workflow_format w ≠ .api) := by
  have hex : ¬ (uiCond w ∧ apiCond w) := by
    rintro ⟨⟨kvs, xs, rfl, hnodes⟩, ⟨kvs2, heq, hne, hdig⟩⟩
    cases heq
    have hmem := alookup_mem hnodes
    have hdg := hdig _ hmem
    rw [pyIsDigit_nodes_false] at hdg
    exact Bool.noConfusion hdg
  have hui : adjust_workflow_format w = .ui ↔ uiCond w := by
    constructor
    · intro h
      cases w with
      | obj kvs =>
          rw [adjust_workflow_format_obj] at h
          cases hn : alookup kvs "nodes" with
          | none =>
              rw [hn] at h
              by_cases hc : (kvs.all (fun kv => pyIsDigit kv.1) && !kvs.isEmpty) = true <;>
                simp [hc] at h
          | some v =>
              rw [hn] at h
              cases v with
              | arr xs => exact ⟨kvs, xs, rfl, hn⟩
              | null =>
                  by_cases hc : (kvs.all (fun kv => pyIsDigit kv.1) && !kvs.isEmpty) = true <;>
                    simp [hc] at h
              | bool b =>
                  by_cases hc : (kvs.all (fun kv => pyIsDigit kv.1) && !kvs.isEmpty) = true <;>
                    simp [hc] at h
              | num n =>
                  by_cases hc : (kvs.all (fun kv => pyIsDigit kv.1) && !kvs.isEmpty) = true <;>
                    simp [hc] at h
              | str s =>
                  by_cases hc : (kvs.all (fun kv => pyIsDigit kv.1) && !kvs.isEmpty) = true <;>
                    simp [hc] at h
              | obj o =>
                  by_cases hc : (kvs.all (fun kv => pyIsDigit kv.1) && !kvs.isEmpty) = true <;>
                    simp [hc] at h
      | null => simp [adjust_workflow_format] at h
      | bool b => simp [adjust_workflow_format] at h
      | num n => simp [adjust_workflow_format] at h
      | str s => simp [adjust_workflow_format] at h
      | arr xs => simp [adjust_workflow_format] at h
    · rintro ⟨kvs, xs, rfl, hn⟩
      rw [adjust_workflow_format_obj, hn]
  have hapi : adjust_workflow_format w = .api ↔ apiCond w := by
    constructor
    · intro h
      cases w with
      | obj kvs =>
          rw [adjust_workflow_format_obj] at h
          have hall : (kvs.all (fun kv => pyIsDigit kv.1) && !kvs.isEmpty) = true := by
            cases hn : alookup kvs "nodes" with
            | none =>
                rw [hn] at h
                by_cases hc : (kvs.all (fun kv => pyIsDigit kv.1) && !kvs.isEmpty) = true
                · exact hc
                · simp [hc] at h
            | some v =>
                rw [hn] at h
                cases v with
                | arr xs => exact absurd h (by simp)
                | null =>
                    by_cases hc : (kvs.all (fun kv => pyIsDigit kv.1) && !kvs.isEmpty) = true
                    · exact hc
                    · simp [hc] at h
                | bool b =>
                    by_cases hc : (kvs.all (fun kv => pyIsDigit kv.1) && !kvs.isEmpty) = true
                    · exact hc
                    · simp [hc] at h
                | num n =>
                    by_cases hc : (kvs.all (fun kv => pyIsDigit kv.1) && !kvs.isEmpty) = true
                    · exact hc
                    · simp [hc] at h
                | str s =>
                    by_cases hc : (kvs.all (fun kv => pyIsDigit kv.1) && !kvs.isEmpty) = true
                    · exact hc
                    · simp [hc] at h
                | obj o =>
                    by_cases hc : (kvs.all (fun kv => pyIsDigit kv.1) && !kvs.isEmpty) = true
                    · exact hc
                    · simp [hc] at h
          refine ⟨kvs, rfl, ?_, ?_⟩
          · intro hnil
            subst hnil
            simp at hall
          · exact fun p hp => (List.all_eq_true.mp (Bool.and_elim_left hall)) p hp
      | null => simp [adjust_workflow_format] at h
      | bool b => simp [adjust_workflow_format] at h
      | num n => simp [adjust_workflow_format] at h
      | str s => simp [adjust_workflow_format] at h
      | arr xs => simp [adjust_workflow_format] at h
    · rintro ⟨kvs, rfl, hne, hdig⟩
      have hall : kvs.all (fun kv => pyIsDigit kv.1) = true :=
        List.all_eq_true.mpr hdig
      have hnem : (!kvs.isEmpty) = true := by
        cases kvs with
        | nil => exact absurd rfl hne
        | cons a l => simp
      rw [adjust_workflow_format_obj]
      cases hn : alookup kvs "nodes" with
      | none => simp [hall, hnem]
      | some v =>
          have hdg := hdig _ (alookup_mem hn)
          rw [pyIsDigit_nodes_false] at hdg
          exact Bool.noConfusion hdg
  refine ⟨?_, hui, hapi, ?_, hex, ?_, ?_, ?_⟩
  · cases h : adjust_workflow_format w with
    | ui => exact Or.inl rfl
    | api => exact Or.inr (Or.inl rfl)
    | invalid => exact Or.inr (Or.inr rfl)
  · constructor
    · intro h
      constructor
      · intro hu
        have h2 := hui.mpr hu
        rw [h] at h2
        exact WorkflowFormat.noConfusion h2
      · intro ha
        have h2 := hapi.mpr ha
        rw [h] at h2
        exact WorkflowFormat.noConfusion h2
    · rintro ⟨hnu, hna⟩
      cases h : adjust_workflow_format w with
      | ui => exact absurd (hui.mp h) hnu
      | api => exact absurd (hapi.mp h) hna
      | invalid => rfl
  · intro hno
    cases w with
    | obj kvs => exact absurd rfl (hno kvs)
    | null => rfl
    | bool b => rfl
    | num n => rfl
    | str s => rfl
    | arr xs => rfl
  · rintro rfl
    rfl
  · intro hu ha
    exact hex ⟨hu, hapi.mp ha⟩

/-- Concrete instances exercising the classifier characterisation. -/
theorem adjust_workflow_format_total_exclusive_inst :
    adjust_workflow_format (.obj [("12", .obj [])]) = .api ∧
    adjust_workflow_format (.obj [("nodes", .arr []), ("links", .arr [])]) = .ui ∧
    adjust_workflow_format (.obj []) = .invalid ∧
    adjust_workflow_format (.str "x") = .invalid := by
  refine ⟨?_, ?_, ?_, ?_⟩
  · refine (adjust_workflow_format_total_exclusive _).2.2.1.mpr
      ⟨[("12", .obj [])], rfl, by simp, ?_⟩
    intro p hp
    simp at hp
    subst hp
    decide
  · exact (adjust_workflow_format_total_exclusive _).2.1.mpr
      ⟨[("nodes", .arr []), ("links", .arr [])], [], rfl, by simp [alookup]⟩
  · exact (adjust_workflow_format_total_exclusive (.obj [])).2.2.2.2.2.2.1 rfl
  · exact (adjust_workflow_format_total_exclusive (.str "x")).2.2.2.2.2.1
      (by intro kvs h; exact JVal.noConfusion h)

/-! ### Errors

Raised Python exceptions and unmodelled runtime type errors (both abort the
request: the route handler catches them and returns an error response, and
in particular never submits the workflow). -/

/-- Error channel of the embedded Python code. -/
inductive Err where
  | raised (msg : String)
  | typeError
deriving Repr, DecidableEq

/-- Result of fallible Python code. -/
abbrev Res (α : Type) := Except Err α

/-- `MEDIA_UPLOAD_NODE_TYPES` from `oneapi.py`. -/
def MEDIA_UPLOAD_NODE_TYPES : List String :=
  ["LoadImage", "VHS_LoadAudioUpload", "VHS_LoadVideo"]

/-- Substring test, for Python `sub in s` on strings. -/
def strContainsSub (s sub : String) : Bool :=
  s.data.tails.any (fun t => prefixOfChars sub.data t)

/-- Python `k in v` for a string `k` and an arbitrary container `v`
(mapping: key test; sequence: membership, where a string equals only that
string; string: substring test; anything else raises `TypeError`). -/
def pyInStr (k : String) (v : JVal) : Res Bool :=
  match v with
  | .obj kvs => .ok (alookup kvs k).isSome
  | .arr xs => .ok (xs.any (fun x => match x with | .str s => s = k | _ => false))
  | .str s => .ok (strContainsSub s k)
  | _ => .error .typeError

/-- A node mapping, i.e. the entries of one node object. -/
abbrev NodeEnts := List (String × JVal)

/-- `_is_valid_node` from `oneapi.py`: a dict containing `_meta` such that
`"title" in node["_meta"]`. -/
def is_valid_node (nd : JVal) : Res Bool :=
  match nd with
  | .obj kvs =>
      match alookup kvs "_meta" with
      | some m => pyInStr "title" m
      | none => .ok false
  | _ => .ok false

/-- `node_data["_meta"]["title"]` as read by `_process_node_params` and
`_extract_output_nodes`, followed by `title.split`: any non-dict `_meta`,
missing key, or non-string title raises at this point. -/
def get_node_title (kvs : NodeEnts) : Res String :=
  match alookup kvs "_meta" with
  | some (.obj m) =>
      match alookup m "title" with
      | some (.str t) => .ok t
      | some _ => .error .typeError
      | none => .error .typeError
  | some _ => .error .typeError
  | none => .error .typeError

/-- `_set_node_param` from `oneapi.py`: create the `inputs` mapping when
absent, then assign the field; a non-mapping `inputs` value raises. -/
def set_node_param (node : NodeEnts) (field : String) (v : JVal) : Res NodeEnts :=
  match alookup node "inputs" with
  | none => .ok (aset node "inputs" (.obj [(field, v)]))
  | some (.obj ins) => .ok (aset node "inputs" (.obj (aset ins field v)))
  | some _ => .error .typeError

/-- The media resolver (`_upload_media_from_source`): download plus engine
upload, an external collaborator modelled as a function from the URL to the
engine-assigned reference name or a failure message. -/
abbrev Resolver := String → Except String String

/-- `_handle_media_upload` from `oneapi.py`: a string value with an
`http://` or `https://` prefix is resolved first and the returned reference
name assigned; resolution failure raises the fatal media-upload error; any
other value is assigned directly. -/
def handle_media_upload (resolver : Resolver) (node : NodeEnts)
    (field : String) (v : JVal) : Res NodeEnts :=
  match v with
  | .str s =>
      if pyStartsWith s "http://" || pyStartsWith s "https://" then
        match resolver s with
        | .ok name => set_node_param node field (.str name)
        | .error e => .error (.raised ("Media upload failed: " ++ e))
      else set_node_param node field v
  | _ => set_node_param node field v

/-- String membership in a list, for Python `in` over string collections. -/
def strInList (s : String) : List String → Bool
  | [] => false
  | x :: xs => (x = s) || strInList s xs

/-- Whether `node_data.get("class_type")` lies in `MEDIA_UPLOAD_NODE_TYPES`
(a non-string class type is never a member). -/
def node_class_type_is_media (node : NodeEnts) : Bool :=
  match alookup node "class_type" with
  | some (.str t) => strInList t MEDIA_UPLOAD_NODE_TYPES
  | _ => false

/-- `_process_param_marker` from `oneapi.py`: a marker without a field
separator is only logged and ignored; otherwise the marker is split at the
first dot into parameter and field name, absent parameters are skipped, and
media-upload-capable node types route through `_handle_media_upload`. -/
def process_param_marker (resolver : Resolver) (node : NodeEnts)
    (var_spec : String) (params : List (String × JVal)) : Res NodeEnts :=
  if !pyContainsChar var_spec '.' then .ok node
  else
    match alookup params (pySplitDot1 var_spec).1 with
    | none => .ok node
    | some pv =>
        if node_class_type_is_media node then
          handle_media_upload resolver node (pySplitDot1 var_spec).2 pv
        else set_node_param node (pySplitDot1 var_spec).2 pv

/-- The loop of `_process_node_params`: strip each comma-separated segment,
ignore segments not starting with `$`, and process the rest as parameter
markers. -/
def process_parts (resolver : Resolver) (params : List (String × JVal)) :
    List String → NodeEnts → Res NodeEnts
  | [], node => .ok node
  | part :: rest, node =>
      if pyStartsWith (pyStrip part) "$" then
        match process_param_marker resolver node (pyDropFirst (pyStrip part)) params with
        | .ok node2 => process_parts resolver params rest node2
        | .error e => .error e
      else process_parts resolver params rest node

/-- `_process_node_params` from `oneapi.py`. -/
def process_node_params (resolver : Resolver) (node : NodeEnts)
    (params : List (String × JVal)) : Res NodeEnts :=
  match get_node_title node with
  | .ok title => process_parts resolver params (pySplitChar title ',') node
  | .error e => .error e

/-- The loop of `_apply_params_to_workflow` over the (deep-copied) node
entries: invalid nodes pass through unchanged, valid nodes have their
parameter markers processed. -/
def apply_nodes (resolver : Resolver) (params : List (String × JVal)) :
    List (String × JVal) → Res (List (String × JVal))
  | [] => .ok []
  | (nid, nd) :: rest =>
      match is_valid_node nd with
      | .error e => .error e
      | .ok valid =>
          match (if valid then
                   match nd with
                   | .obj kvs =>
                       match process_node_params resolver kvs params with
                       | .ok kvs2 => .ok (JVal.obj kvs2)
                       | .error e => .error e
                   | _ => .error .typeError
                 else .ok nd : Res JVal) with
          | .error e => .error e
          | .ok nd2 =>
              match apply_nodes resolver params rest with
              | .ok rest2 => .ok ((nid, nd2) :: rest2)
              | .error e => .error e

/-- `_apply_params_to_workflow` from `oneapi.py` as a pure transform: the
Python function deep-copies its argument and mutates only the copy, so its
observable behaviour is this function of the workflow value (the heap-level
mutation discipline is verified separately below). -/
def apply_params_to_workflow (resolver : Resolver) (workflow : JVal)
    (params : List (String × JVal)) : Res JVal :=
  match workflow with
  | .obj nodes => (apply_nodes resolver params nodes).map .obj
  | _ => .error .typeError

/-- The title scan of `_extract_output_nodes`: the running `output_var`
(later markers overwrite earlier ones), a `$output`-prefixed segment with a
dot but an empty name raises the empty-name error, and a `$output`-prefixed
segment without any dot raises the missing-name error. -/
def extract_title_output_var : List String → Option String → Res (Option String)
  | [], acc => .ok acc
  | part :: rest, acc =>
      if pyStartsWith (pyStrip part) "$output" then
        if pyContainsChar (pyStrip part) '.' then
          if (pySplitDot1 (pyStrip part)).2 = "" then
            .error (.raised ("Invalid output marker format (empty name): " ++
              pyStrip part))
          else extract_title_output_var rest (some (pySplitDot1 (pyStrip part)).2)
        else
          .error (.raised ("Invalid output marker format (missing name): " ++
            pyStrip part ++ ". Use $output.name format."))
      else extract_title_output_var rest acc

/-- The node loop of `_extract_output_nodes`. -/
def extract_nodes : List (String × JVal) → List (String × String) →
    Res (List (String × String))
  | [], acc => .ok acc
  | (nid, nd) :: rest, acc =>
      match is_valid_node nd with
      | .error e => .error e
      | .ok valid =>
          if valid then
            match nd with
            | .obj kvs =>
                match get_node_title kvs with
                | .error e => .error e
                | .ok title =>
                    match extract_title_output_var (pySplitChar title ',') none with
                    | .error e => .error e
                    | .ok (some v) => extract_nodes rest (aset acc nid v)
                    | .ok none => extract_nodes rest acc
            | _ => .error .typeError
          else extract_nodes rest acc

/-- `_extract_output_nodes` from `oneapi.py`. -/
def extract_output_nodes (workflow : JVal) : Res (List (String × String)) :=
  match workflow with
  | .obj nodes => extract_nodes nodes []
  | _ => .error .typeError

/-- The pure part of the `execute_workflow` route before submission
(`oneapi.py` lines 131 to 143): classification, parameter binding, output
registration.  Early 400 responses and raised exceptions both abort the
request before anything is submitted; both live in the error channel here.
Submission happens only on an `.ok` result. -/
def prepare_request (resolver : Resolver) (workflow : JVal)
    (params : List (String × JVal)) : Res (JVal × List (String × String)) :=
  match adjust_workflow_format workflow with
  | .invalid => .error (.raised "Invalid workflow format")
  | .ui => .error (.raised
      "UI format workflow is not supported. Please convert to API format and try again.")
  | .api =>
      match (if !params.isEmpty then apply_params_to_workflow resolver workflow params
             else .ok workflow : Res JVal) with
      | .error e => .error e
      | .ok wf =>
          match extract_output_nodes wf with
          | .error e => .error e
          | .ok ov => .ok (wf, ov)

/-! ### Association list lemmas -/

theorem alookup_aset_self {α : Type} (l : List (String × α)) (k : String) (v : α) :
    alookup (aset l k v) k = some v := by
  induction l with
  | nil => simp [aset, alookup]
  | cons p rest ih =>
      obtain ⟨k0, v0⟩ := p
      by_cases hk : k0 = k
      · subst hk
        simp [aset, alookup]
      · simp [aset, alookup, hk, ih]

theorem alookup_aset_ne {α : Type} (l : List (String × α)) (k k2 : String) (v : α)
    (h : k ≠ k2) : alookup (aset l k v) k2 = alookup l k2 := by
  induction l with
  | nil => simp [aset, alookup, h]
  | cons p rest ih =>
      obtain ⟨k0, v0⟩ := p
      by_cases hk : k0 = k
      · subst hk
        simp [aset, alookup, h]
      · simp [aset, alookup, hk, ih]

/-! ### C2: malformed directives -/

theorem process_parts_cons (resolver : Resolver) (params : List (String × JVal))
    (part : String) (rest : List String) (node : NodeEnts) :
    process_parts resolver params (part :: rest) node =
      (if pyStartsWith (pyStrip part) "$" then
         match process_param_marker resolver node (pyDropFirst (pyStrip part)) params with
         | .ok node2 => process_parts resolver params rest node2
         | .error e => .error e
       else process_parts resolver params rest node) := rfl

theorem extract_title_output_var_cons (part : String) (rest : List String)
    (acc : Option String) :
    extract_title_output_var (part :: rest) acc =
      (if pyStartsWith (pyStrip part) "$output" then
         if pyContainsChar (pyStrip part) '.' then
           if (pySplitDot1 (pyStrip part)).2 = "" then
             .error (.raised ("Invalid output marker format (empty name): " ++
               pyStrip part))
           else extract_title_output_var rest (some (pySplitDot1 (pyStrip part)).2)
         else
           .error (.raised ("Invalid output marker format (missing name): " ++
             pyStrip part ++ ". Use $output.name format."))
       else extract_title_output_var rest acc) := rfl

theorem extract_nodes_cons (nid : String) (nd : JVal) (rest : List (String × JVal))
    (acc : List (String × String)) :
    extract_nodes ((nid, nd) :: rest) acc =
      (match is_valid_node nd with
       | .error e => .error e
       | .ok valid =>
           if valid then
             match nd with
             | .obj kvs =>
                 match get_node_title kvs with
                 | .error e => .error e
                 | .ok title =>
                     match extract_title_output_var (pySplitChar title ',') none with
                     | .error e => .error e
                     | .ok (some v) => extract_nodes rest (aset acc nid v)
                     | .ok none => extract_nodes rest acc
             | _ => .error .typeError
           else extract_nodes rest acc) := rfl

theorem dotless_drop {p : String} (h : pyContainsChar p '.' = false) :
    pyContainsChar (pyDropFirst p) '.' = false := by
  unfold pyContainsChar pyDropFirst at *
  cases hd : p.data with
  | nil => simp [hd] at h ⊢
  | cons a l =>
      rw [hd] at h
      simp only [List.drop_one]
      simp only [List.contains_cons, Bool.or_eq_false_iff] at h
      simpa using h.2

/-- C2 counterexample: the segment `$outputs` begins with `$` and contains
no dot, yet output registration raises a fatal error on it rather than
ignoring it, refuting `never fatal` for dotless `$`-segments. -/
theorem extract_output_nodes_dotless_fatal_cex :
    pyStartsWith (pyStrip "$outputs") "$" = true ∧
    pyContainsChar (pyStrip "$outputs") '.' = false ∧
    extract_output_nodes (.obj [("1", .obj [("class_type", .str "SaveImage"),
        ("inputs", .obj []),
        ("_meta", .obj [("title", .str "$outputs")])])]) =
      .error (.raised
        "Invalid output marker format (missing name): $outputs. Use $output.name format.") :=
  ⟨by decide, by decide, rfl⟩

/-- C2 (amended): during parameter binding every dotless `$`-segment is
ignored and the remaining segments keep being processed; during output
registration a segment not prefixed by `$output` is ignored, while any
dotless segment prefixed by `$output` (in particular the exact segment
`$output`) raises the fatal missing-name error, aborting the whole
registration (and hence the request, which submits only after
registration succeeds). -/
theorem dotless_marker_handling :
    (∀ (resolver : Resolver) (params : List (String × JVal)) (node : NodeEnts)
       (part : String) (rest : List String),
       pyStartsWith (pyStrip part) "$" = true →
       pyContainsChar (pyStrip part) '.' = false →
       process_parts resolver params (part :: rest) node =
         process_parts resolver params rest node) ∧
    (∀ (part : String) (rest : List String) (acc : Option String),
       pyStartsWith (pyStrip part) "$output" = false →
       extract_title_output_var (part :: rest) acc =
         extract_title_output_var rest acc) ∧
    (∀ (part : String) (rest : List String) (acc : Option String),
       pyStartsWith (pyStrip part) "$output" = true →
       pyContainsChar (pyStrip part) '.' = false →
       extract_title_output_var (part :: rest) acc =
         .error (.raised ("Invalid output marker format (missing name): " ++
           pyStrip part ++ ". Use $output.name format."))) ∧
    (∀ (nid : String) (rest : List (String × JVal)) (acc : List (String × String))
       (kvs : NodeEnts) (title : String) (part : String) (rest2 : List String),
       is_valid_node (.obj kvs) = .ok true →
       get_node_title kvs = .ok title →
       pySplitChar title ',' = part :: rest2 →
       pyStartsWith (pyStrip part) "$output" = true →
       pyContainsChar (pyStrip part) '.' = false →
       extract_nodes ((nid, .obj kvs) :: rest) acc =
         .error (.raised ("Invalid output marker format (missing name): " ++
           pyStrip part ++ ". Use $output.name format."))) := by
  have h3 : ∀ (part : String) (rest : List String) (acc : Option String),
      pyStartsWith (pyStrip part) "$output" = true →
      pyContainsChar (pyStrip part) '.' = false →
      extract_title_output_var (part :: rest) acc =
        .error (.raised ("Invalid output marker format (missing name): " ++
          pyStrip part ++ ". Use $output.name format.")) := by
    intro part rest acc hsw hdot
    rw [extract_title_output_var_cons, hsw, hdot]
    simp
  refine ⟨?_, ?_, h3, ?_⟩
  · intro resolver params node part rest hsw hdot
    have hmark : process_param_marker resolver node (pyDropFirst (pyStrip part)) params =
        .ok node := by
      unfold process_param_marker
      rw [dotless_drop hdot]
      simp
    rw [process_parts_cons, hsw, hmark]
    simp
  · intro part rest acc hsw
    rw [extract_title_output_var_cons, hsw]
    simp
  · intro nid rest acc kvs title part rest2 hvalid htitle hparts hsw hdot
    rw [extract_nodes_cons, hvalid]
    simp only [if_true]
    rw [htitle]
    dsimp only
    rw [hparts, h3 part rest2 none hsw hdot]

/-- Concrete instances of the amended C2 statement: `$x` is skipped by the
binder with processing continuing, `$x` is invisible to registration, and
the exact segment `$output` is fatal there. -/
theorem dotless_marker_handling_inst :
    process_parts (fun _ => .ok "") [] ["$x"]
      [("class_type", .str "SaveImage")] =
      .ok [("class_type", .str "SaveImage")] ∧
    extract_title_output_var ["$x"] none = .ok none ∧
    extract_title_output_var ["$output"] none =
      .error (.raised
        "Invalid output marker format (missing name): $output. Use $output.name format.") := by
  refine ⟨?_, ?_, ?_⟩
  · rw [dotless_marker_handling.1 (fun _ => .ok "") [] _ "$x" [] (by decide) (by decide)]
    rfl
  · rw [dotless_marker_handling.2.1 "$x" [] none (by decide)]
    rfl
  · rw [dotless_marker_handling.2.2.1 "$output" [] none (by decide) (by decide)]
    rfl

/-! ### C6: media upload binding -/

theorem strInList_of_mem {l : List String} {a : String} (h : a ∈ l) :
    strInList a l = true := by
  induction l with
  | nil => cases h
  | cons b t ih =>
      rcases List.mem_cons.mp h with h1 | h2
      · subst h1
        simp [strInList]
      · simp [strInList, ih h2]

theorem apply_nodes_cons (resolver : Resolver) (params : List (String × JVal))
    (nid : String) (nd : JVal) (rest : List (String × JVal)) :
    apply_nodes resolver params ((nid, nd) :: rest) =
      (match is_valid_node nd with
       | .error e => .error e
       | .ok valid =>
           match (if valid then
                    match nd with
                    | .obj kvs =>
                        match process_node_params resolver kvs params with
                        | .ok kvs2 => .ok (JVal.obj kvs2)
                        | .error e => .error e
                    | _ => .error .typeError
                  else .ok nd : Res JVal) with
           | .error e => .error e
           | .ok nd2 =>
               match apply_nodes resolver params rest with
               | .ok rest2 => .ok ((nid, nd2) :: rest2)
               | .error e => .error e) := rfl

/-- C6: for a node of a media-upload-capable class type with a binding
marker whose parameter is a string value with an `http://` or `https://`
prefix, a successful resolution assigns the engine-returned reference name
to the field; a failed resolution turns into the fatal media-upload error,
which aborts the whole bind and the whole request preparation, so no
partially bound graph is ever returned or submitted. -/
theorem media_upload_marker_binding
    (resolver : Resolver) (node : NodeEnts) (params : List (String × JVal))
    (nid var_spec vn fld ct u title seg : String)
    (hct : alookup node "class_type" = some (.str ct))
    (hmem : ct ∈ MEDIA_UPLOAD_NODE_TYPES)
    (hdot : pyContainsChar var_spec '.' = true)
    (hsplit : pySplitDot1 var_spec = (vn, fld))
    (hparam : alookup params vn = some (.str u))
    (hurl : pyStartsWith u "http://" = true ∨ pyStartsWith u "https://" = true)
    (hins : alookup node "inputs" = none ∨
            ∃ ins, alookup node "inputs" = some (.obj ins))
    (hvalid : is_valid_node (.obj node) = .ok true)
    (htitle : get_node_title node = .ok title)
    (hparts : pySplitChar title ',' = [seg])
    (hsw : pyStartsWith (pyStrip seg) "$" = true)
    (hdrop : pyDropFirst (pyStrip seg) = var_spec)
    (hapi : adjust_workflow_format (.obj [(nid, .obj node)]) = .api)
    (hpne : params ≠ []) :
    (∀ name, resolver u = .ok name →
       ∃ node2 ins2, process_param_marker resolver node var_spec params = .ok node2 ∧
         alookup node2 "inputs" = some (.obj ins2) ∧
         alookup ins2 fld = some (.str name)) ∧
    (∀ e, resolver u = .error e →
       process_param_marker resolver node var_spec params =
         .error (.raised ("Media upload failed: " ++ e))) ∧
    (∀ e, resolver u = .error e →
       apply_params_to_workflow resolver (.obj [(nid, .obj node)]) params =
         .error (.raised ("Media upload failed: " ++ e))) ∧
    (∀ e, resolver u = .error e →
       prepare_request resolver (.obj [(nid, .obj node)]) params =
         .error (.raised ("Media upload failed: " ++ e))) := by
  have hmedia : node_class_type_is_media node = true := by
    unfold node_class_type_is_media
    rw [hct]
    exact strInList_of_mem hmem
  have hurlb : (pyStartsWith u "http://" || pyStartsWith u "https://") = true := by
    rcases hurl with h | h <;> simp [h]
  have hmark : ∀ r : Except String String, resolver u = r →
      process_param_marker resolver node var_spec params =
        (match r with
         | .ok name => set_node_param node fld (.str name)
         | .error e => .error (.raised ("Media upload failed: " ++ e))) := by
    intro r hr
    unfold process_param_marker
    rw [hdot]
    simp only [Bool.not_true, Bool.false_eq_true, if_false]
    rw [hsplit]
    dsimp only
    rw [hparam]
    dsimp only
    rw [hmedia]
    simp only [if_true]
    unfold handle_media_upload
    dsimp only
    rw [hurlb]
    simp only [if_true]
    rw [hr]
  have hfail : ∀ e, resolver u = .error e →
      process_param_marker resolver node var_spec params =
        .error (.raised ("Media upload failed: " ++ e)) := by
    intro e he
    rw [hmark _ he]
  have hnodefail : ∀ e, resolver u = .error e →
      process_node_params resolver node params =
        .error (.raised ("Media upload failed: " ++ e)) := by
    intro e he
    unfold process_node_params
    rw [htitle]
    dsimp only
    rw [hparts, process_parts_cons, hsw]
    simp only [if_true]
    rw [hdrop, hfail e he]
  have happlyfail : ∀ e, resolver u = .error e →
      apply_params_to_workflow resolver (.obj [(nid, .obj node)]) params =
        .error (.raised ("Media upload failed: " ++ e)) := by
    intro e he
    have hstep : apply_params_to_workflow resolver (.obj [(nid, .obj node)]) params =
        (apply_nodes resolver params [(nid, .obj node)]).map .obj := rfl
    rw [hstep, apply_nodes_cons, hvalid]
    dsimp only
    simp only [if_true]
    rw [hnodefail e he]
    rfl
  refine ⟨?_, hfail, happlyfail, ?_⟩
  · intro name hname
    rw [hmark _ hname]
    rcases hins with hnone | ⟨ins, hsome⟩
    · refine ⟨aset node "inputs" (.obj [(fld, .str name)]), [(fld, .str name)], ?_, ?_, ?_⟩
      · unfold set_node_param
        rw [hnone]
      · exact alookup_aset_self _ _ _
      · simp [alookup]
    · refine ⟨aset node "inputs" (.obj (aset ins fld (.str name))),
        aset ins fld (.str name), ?_, ?_, ?_⟩
      · unfold set_node_param
        rw [hsome]
      · exact alookup_aset_self _ _ _
      · exact alookup_aset_self _ _ _
  · intro e he
    unfold prepare_request
    rw [hapi]
    dsimp only
    have hne : (!params.isEmpty) = true := by
      cases params with
      | nil => exact absurd rfl hpne
      | cons a l => rfl
    rw [hne]
    simp only [if_true]
    rw [happlyfail e he]

/-- Concrete instance: a `LoadImage` node bound through `$img.image` to an
`https` URL, with a succeeding and a failing resolver. -/
theorem media_upload_marker_binding_inst :
    (∃ node2 ins2,
       process_param_marker (fun _ => .ok "a.png")
         [("class_type", .str "LoadImage"), ("inputs", .obj []),
          ("_meta", .obj [("title", .str "$img.image")])]
         "img.image" [("img", .str "https://example.com/a.png")] = .ok node2 ∧
       alookup node2 "inputs" = some (.obj ins2) ∧
       alookup ins2 "image" = some (.str "a.png")) ∧
    prepare_request (fun _ => .error "HTTP 404")
      (.obj [("1", .obj [("class_type", .str "LoadImage"), ("inputs", .obj []),
        ("_meta", .obj [("title", .str "$img.image")])])])
      [("img", .str "https://example.com/a.png")] =
      .error (.raised "Media upload failed: HTTP 404") := by
  constructor
  · exact (media_upload_marker_binding (fun _ => .ok "a.png")
      [("class_type", .str "LoadImage"), ("inputs", .obj []),
       ("_meta", .obj [("title", .str "$img.image")])]
      [("img", .str "https://example.com/a.png")]
      "1" "img.image" "img" "image" "LoadImage" "https://example.com/a.png"
      "$img.image" "$img.image"
      rfl (by simp [MEDIA_UPLOAD_NODE_TYPES]) (by decide) rfl rfl
      (Or.inr (by decide)) (Or.inr ⟨[], rfl⟩) rfl rfl rfl (by decide) rfl rfl
      (fun h => List.noConfusion h)).1 "a.png" rfl
  · exact (media_upload_marker_binding (fun _ => .error "HTTP 404")
      [("class_type", .str "LoadImage"), ("inputs", .obj []),
       ("_meta", .obj [("title", .str "$img.image")])]
      [("img", .str "https://example.com/a.png")]
      "1" "img.image" "img" "image" "LoadImage" "https://example.com/a.png"
      "$img.image" "$img.image"
      rfl (by simp [MEDIA_UPLOAD_NODE_TYPES]) (by decide) rfl rfl
      (Or.inr (by decide)) (Or.inr ⟨[], rfl⟩) rfl rfl rfl (by decide) rfl rfl
      (fun h => List.noConfusion h)).2.2.2 "HTTP 404" rfl

/-! ### Interactive-to-linear conversion (`workflow_ui_2_api.py`) -/

/-- One entry of a UI node's `inputs` list: slot name and optional link id. -/
structure UISlot where
  name : String
  link : Option Int
deriving Repr, DecidableEq

/-- One row of the UI graph's `links` table; only the first three positions
(`link[0]`, `link[1]`, `link[2]`) are read by the converter. -/
structure LinkRow where
  linkId : Int
  fromNode : Int
  fromSlot : Int
deriving Repr, DecidableEq

/-- A UI-format node, with the fields `convert_ui_to_api` reads.  `srName`
is `properties.get("Node name for S&R")` when present. -/
structure UINode where
  id : Int
  type : String
  title : Option String
  srName : Option String
  widgets_values : List JVal
  inputs : List UISlot

/-- Per node type, the schema pieces the converter reads from
`object_info`: `input_order.required` and `input.required` (the latter kept
as raw JSON field specs).  The catalog is an external collaborator; a type
absent from it degrades to the empty schema, as in the source. -/
structure NodeSchema where
  input_order_required : List String
  input_required : List (String × JVal)

/-- The live schema catalog, keyed by node type name. -/
abbrev ObjectInfo := List (String × NodeSchema)

/-- The fixed control tokens recognised after a regenerate-controlled
field. -/
def control_values : List String := ["randomize", "increment", "decrement", "fixed"]

/-- Python `next_value in control_values` (a non-string value never equals
any of the tokens). -/
def is_control_value (v : JVal) : Bool :=
  match v with
  | .str s => strInList s control_values
  | _ => false

/-- Whether a raw field spec carries a truthy `control_after_generate` in
its metadata position (`field_info[1]`, requiring `len(field_info) > 1` and
a dict there). -/
def field_has_control (fi : Option JVal) : Bool :=
  match fi with
  | some (.arr (_ :: meta :: _)) =>
      match meta with
      | .obj m => truthy ((alookup m "control_after_generate").getD .null)
      | _ => false
  | _ => false

/-- The declared default of a raw field spec (`"default" in field_info[1]`),
when present. -/
def field_default (fi : Option JVal) : Option JVal :=
  match fi with
  | some (.arr (_ :: meta :: _)) =>
      match meta with
      | .obj m => alookup m "default"
      | _ => none
  | _ => none

/-- The first row of the links table with the given link id (`for link in
links: if link[0] == link_id: ... break`). -/
def resolve_link (links : List LinkRow) (lid : Int) : Option LinkRow :=
  links.find? (fun l => l.linkId == lid)

/-- Pass 1 of `convert_ui_to_api`: write `[str(fromNode), fromSlot]` for
every input slot whose link id resolves in the links table. -/
def link_pass (links : List LinkRow) : List UISlot → List (String × JVal) →
    List (String × JVal)
  | [], ins => ins
  | slot :: rest, ins =>
      match slot.link with
      | some lid =>
          match resolve_link links lid with
          | some l =>
              link_pass links rest
                (aset ins slot.name (.arr [.str (toString l.fromNode), .num l.fromSlot]))
          | none => link_pass links rest ins
      | none => link_pass links rest ins

/-- The set of field names covered by links (slots with a non-null link
value). -/
def linked_fields (slots : List UISlot) : List String :=
  (slots.filter (fun s => s.link.isSome)).map (fun s => s.name)

/-- Pass 3 of `convert_ui_to_api`: walk the required field order, skip
fields covered by links, stop when the widget list is exhausted, assign the
widget at the cursor to the field and advance, and additionally consume one
control token after a field that carries `control_after_generate`.  Returns
the ordered field assignments. -/
def assign_widgets (input_required : List (String × JVal)) (linked : List String)
    (widgets : List JVal) : List String → Nat → List (String × JVal)
  | [], _ => []
  | f :: rest, idx =>
      if strInList f linked then assign_widgets input_required linked widgets rest idx
      else if idx < widgets.length then
        (f, widgets.getD idx .null) ::
          (if field_has_control (alookup input_required f) &&
              decide (idx + 1 < widgets.length) &&
              is_control_value (widgets.getD (idx + 1) .null)
           then assign_widgets input_required linked widgets rest (idx + 2)
           else assign_widgets input_required linked widgets rest (idx + 1))
      else []

/-- Application of the ordered widget assignments to the inputs mapping. -/
def apply_assigns : List (String × JVal) → List (String × JVal) →
    List (String × JVal)
  | [], ins => ins
  | (f, v) :: rest, ins => apply_assigns rest (aset ins f v)

/-- Pass 4 of `convert_ui_to_api`: fill schema defaults for required fields
still missing from the inputs mapping. -/
def default_pass (input_required : List (String × JVal)) :
    List String → List (String × JVal) → List (String × JVal)
  | [], ins => ins
  | f :: rest, ins =>
      if (alookup ins f).isSome then default_pass input_required rest ins
      else
        match field_default (alookup input_required f) with
        | some d => default_pass input_required rest (aset ins f d)
        | none => default_pass input_required rest ins

/-- The node title written to `_meta`: the explicit title when truthy, else
the S&R property, else the node type. -/
def node_title (n : UINode) : String :=
  match n.title with
  | some t => if t ≠ "" then t else (n.srName.getD n.type)
  | none => n.srName.getD n.type

/-- A converted (linear-format) node. -/
structure LinearNode where
  inputs : List (String × JVal)
  class_type : String
  title : String

/-- Conversion of one UI node: link pass, widget assignment over the
required order, then default back-fill. -/
def convert_node (object_info : ObjectInfo) (links : List LinkRow)
    (n : UINode) : LinearNode :=
  let schema := (alookup object_info n.type).getD ⟨[], []⟩
  let ins1 := link_pass links n.inputs []
  let assigns := assign_widgets schema.input_required (linked_fields n.inputs)
      n.widgets_values schema.input_order_required 0
  let ins2 := apply_assigns assigns ins1
  let ins3 := default_pass schema.input_required schema.input_order_required ins2
  { inputs := ins3, class_type := n.type, title := node_title n }

/-- `convert_ui_to_api` over the node list, building the linear graph keyed
by stringified node id. -/
def convert_ui_to_api (object_info : ObjectInfo) (links : List LinkRow) :
    List UINode → List (String × LinearNode) → List (String × LinearNode)
  | [], api => api
  | n :: rest, api =>
      convert_ui_to_api object_info links rest
        (aset api (toString n.id) (convert_node object_info links n))

theorem convert_node_inputs (object_info : ObjectInfo) (links : List LinkRow)
    (n : UINode) :
    (convert_node object_info links n).inputs =
      default_pass ((alookup object_info n.type).getD ⟨[], []⟩).input_required
        ((alookup object_info n.type).getD ⟨[], []⟩).input_order_required
        (apply_assigns
          (assign_widgets ((alookup object_info n.type).getD ⟨[], []⟩).input_required
            (linked_fields n.inputs) n.widgets_values
            ((alookup object_info n.type).getD ⟨[], []⟩).input_order_required 0)
          (link_pass links n.inputs [])) := rfl

/-! ### C4 and C5: link precedence and control-token skip -/

theorem link_pass_lookup_notmem (links : List LinkRow) :
    ∀ (slots : List UISlot) (ins : List (String × JVal)) (k : String),
    k ∉ slots.map UISlot.name →
    alookup (link_pass links slots ins) k = alookup ins k := by
  intro slots
  induction slots with
  | nil => intro ins k _; rfl
  | cons s rest ih =>
      intro ins k hk
      have hks : s.name ≠ k := by
        intro he
        exact hk (by simp [he])
      have hkr : k ∉ rest.map UISlot.name := by
        intro hm
        exact hk (by simp [hm])
      cases hl : s.link with
      | none => simp only [link_pass, hl]; exact ih ins k hkr
      | some lid =>
          cases hr : resolve_link links lid with
          | none => simp only [link_pass, hl, hr]; exact ih ins k hkr
          | some l =>
              simp only [link_pass, hl, hr]
              rw [ih _ k hkr, alookup_aset_ne _ _ _ _ hks]

theorem link_pass_lookup (links : List LinkRow) (slot : UISlot) (lid : Int)
    (l : LinkRow) :
    ∀ (slots : List UISlot) (ins : List (String × JVal)),
    slot ∈ slots → slot.link = some lid → resolve_link links lid = some l →
    (slots.map UISlot.name).Nodup →
    alookup (link_pass links slots ins) slot.name =
      some (.arr [.str (toString l.fromNode), .num l.fromSlot]) := by
  intro slots
  induction slots with
  | nil => intro ins hm; cases hm
  | cons s rest ih =>
      intro ins hm hlink hres hnd
      rw [List.map_cons] at hnd
      have hnd2 := List.nodup_cons.mp hnd
      rcases List.mem_cons.mp hm with he | hmr
      · subst he
        simp only [link_pass, hlink, hres]
        rw [link_pass_lookup_notmem links rest _ _ hnd2.1,
          alookup_aset_self]
      · cases hl : s.link with
        | none =>
            simp only [link_pass, hl]
            exact ih _ hmr hlink hres hnd2.2
        | some lid2 =>
            cases hr : resolve_link links lid2 with
            | none =>
                simp only [link_pass, hl, hr]
                exact ih _ hmr hlink hres hnd2.2
            | some l2 =>
                simp only [link_pass, hl, hr]
                exact ih _ hmr hlink hres hnd2.2

theorem assign_widgets_cons (ir : List (String × JVal)) (linked : List String)
    (widgets : List JVal) (g : String) (rest : List String) (idx : Nat) :
    assign_widgets ir linked widgets (g :: rest) idx =
      (if strInList g linked then assign_widgets ir linked widgets rest idx
       else if idx < widgets.length then
         (g, widgets.getD idx .null) ::
           (if field_has_control (alookup ir g) &&
               decide (idx + 1 < widgets.length) &&
               is_control_value (widgets.getD (idx + 1) .null)
            then assign_widgets ir linked widgets rest (idx + 2)
            else assign_widgets ir linked widgets rest (idx + 1))
       else []) := rfl

theorem assign_widgets_fields_not_linked (ir : List (String × JVal))
    (linked : List String) (widgets : List JVal) :
    ∀ (order : List String) (idx : Nat) (f : String) (v : JVal),
    (f, v) ∈ assign_widgets ir linked widgets order idx →
    strInList f linked = false := by
  intro order
  induction order with
  | nil =>
      intro idx f v hm
      have hnil : assign_widgets ir linked widgets [] idx = [] := rfl
      rw [hnil] at hm
      cases hm
  | cons g rest ih =>
      intro idx f v hm
      by_cases hg : strInList g linked = true
      · rw [assign_widgets_cons, if_pos hg] at hm
        exact ih idx f v hm
      · rw [assign_widgets_cons, if_neg hg] at hm
        by_cases hi : idx < widgets.length
        · rw [if_pos hi] at hm
          rcases List.mem_cons.mp hm with he | hmr
          · have h1 : f = g := congrArg Prod.fst he
            subst h1
            exact Bool.eq_false_iff.mpr hg
          · by_cases hc : (field_has_control (alookup ir g) &&
                decide (idx + 1 < widgets.length) &&
                is_control_value (widgets.getD (idx + 1) .null)) = true
            · rw [if_pos hc] at hmr
              exact ih _ f v hmr
            · rw [if_neg hc] at hmr
              exact ih _ f v hmr
        · rw [if_neg hi] at hm
          cases hm

theorem apply_assigns_lookup_ne (k : String) :
    ∀ (assigns ins : List (String × JVal)),
    (∀ p ∈ assigns, p.1 ≠ k) →
    alookup (apply_assigns assigns ins) k = alookup ins k := by
  intro assigns
  induction assigns with
  | nil => intro ins _; rfl
  | cons p rest ih =>
      intro ins hne
      obtain ⟨f, v⟩ := p
      simp only [apply_assigns]
      rw [ih _ (fun q hq => hne q (List.mem_cons_of_mem _ hq)),
        alookup_aset_ne _ _ _ _ (hne (f, v) (List.mem_cons_self _ _))]

theorem default_pass_lookup_some (ir : List (String × JVal)) (k : String)
    (v : JVal) :
    ∀ (order : List String) (ins : List (String × JVal)),
    alookup ins k = some v →
    alookup (default_pass ir order ins) k = some v := by
  intro order
  induction order with
  | nil => intro ins h; exact h
  | cons f rest ih =>
      intro ins h
      by_cases hf : (alookup ins f).isSome
      · rw [default_pass, if_pos hf]
        exact ih _ h
      · rw [default_pass, if_neg hf]
        cases hd : field_default (alookup ir f) with
        | none => exact ih _ h
        | some d =>
            have hfk : f ≠ k := by
              intro he
              subst he
              rw [h] at hf
              simp at hf
            exact ih _ (by rw [alookup_aset_ne _ _ _ _ hfk]; exact h)

theorem mem_linked_fields {slots : List UISlot} {slot : UISlot}
    (hm : slot ∈ slots) (hl : slot.link.isSome) :
    slot.name ∈ linked_fields slots := by
  unfold linked_fields
  exact List.mem_map_of_mem _ (List.mem_filter.mpr ⟨hm, hl⟩)

theorem assign_widgets_filter (ir : List (String × JVal)) (linked : List String)
    (widgets : List JVal) :
    ∀ (order : List String) (idx : Nat),
    assign_widgets ir linked widgets order idx =
      assign_widgets ir [] widgets (order.filter (fun f => !strInList f linked)) idx := by
  intro order
  induction order with
  | nil => intro idx; rfl
  | cons g rest ih =>
      intro idx
      by_cases hg : strInList g linked = true
      · rw [assign_widgets_cons, if_pos hg, List.filter_cons_of_neg (by simp [hg])]
        exact ih idx
      · rw [List.filter_cons_of_pos (by simp [hg])]
        rw [assign_widgets_cons, if_neg hg]
        rw [assign_widgets_cons]
        rw [if_neg (show ¬ (strInList g [] = true) from fun h => Bool.false_ne_true h)]
        by_cases hi : idx < widgets.length
        · rw [if_pos hi, if_pos hi]
          by_cases hc : (field_has_control (alookup ir g) &&
              decide (idx + 1 < widgets.length) &&
              is_control_value (widgets.getD (idx + 1) .null)) = true
          · rw [if_pos hc, if_pos hc, ih]
          · rw [if_neg hc, if_neg hc, ih]
        · rw [if_neg hi, if_neg hi]

/-- C4: an input slot with a link id that resolves in the links table ends
up bound to the `[str(fromNode), fromSlot]` pair in the converted node (the
widget and default passes never touch it), and the widget cursor never
advances for link-covered fields: assignment over the required order with a
linked-field set equals assignment over the order with the linked fields
removed. -/
theorem link_precedence
    (object_info : ObjectInfo) (links : List LinkRow) (n : UINode)
    (slot : UISlot) (lid : Int) (l : LinkRow)
    (hm : slot ∈ n.inputs) (hlink : slot.link = some lid)
    (hres : resolve_link links lid = some l)
    (hnd : (n.inputs.map UISlot.name).Nodup) :
    alookup (convert_node object_info links n).inputs slot.name =
      some (.arr [.str (toString l.fromNode), .num l.fromSlot]) ∧
    (∀ (ir : List (String × JVal)) (linked : List String) (widgets : List JVal)
       (order : List String) (idx : Nat),
       assign_widgets ir linked widgets order idx =
         assign_widgets ir [] widgets
           (order.filter (fun f => !strInList f linked)) idx) := by
  constructor
  · rw [convert_node_inputs]
    have h1 : alookup (link_pass links n.inputs []) slot.name =
        some (.arr [.str (toString l.fromNode), .num l.fromSlot]) :=
      link_pass_lookup links slot lid l n.inputs [] hm hlink hres hnd
    have hsl : strInList slot.name (linked_fields n.inputs) = true :=
      strInList_of_mem (mem_linked_fields hm (by rw [hlink]; rfl))
    have h2 : alookup (apply_assigns
        (assign_widgets ((alookup object_info n.type).getD ⟨[], []⟩).input_required
          (linked_fields n.inputs) n.widgets_values
          ((alookup object_info n.type).getD ⟨[], []⟩).input_order_required 0)
        (link_pass links n.inputs [])) slot.name =
        some (.arr [.str (toString l.fromNode), .num l.fromSlot]) := by
      rw [apply_assigns_lookup_ne slot.name _ _ ?hne]
      · exact h1
      case hne =>
        intro p hp he
        obtain ⟨pf, pv⟩ := p
        have hnl := assign_widgets_fields_not_linked _ _ _ _ _ pf pv hp
        have he2 : pf = slot.name := he
        rw [he2] at hnl
        rw [hnl] at hsl
        exact Bool.noConfusion hsl
    exact default_pass_lookup_some _ _ _ _ _ h2
  · exact fun ir linked w order idx => assign_widgets_filter ir linked w order idx

/-- Concrete instance: node 3 of type `X` with slot `image` linked through
link 5 from node 2 slot 0, required order `[image, scale]`, one widget value
`7`: `image` is bound to the link pair and `scale` receives the widget value
the cursor did not spend on `image`. -/
theorem link_precedence_inst :
    alookup (convert_node
      [("X", ⟨["image", "scale"],
        [("image", .arr [.str "IMAGE"]), ("scale", .arr [.str "FLOAT"])]⟩)]
      [⟨5, 2, 0⟩]
      ⟨3, "X", some "t", none, [.num 7], [⟨"image", some 5⟩]⟩).inputs "image" =
      some (.arr [.str "2", .num 0]) ∧
    alookup (convert_node
      [("X", ⟨["image", "scale"],
        [("image", .arr [.str "IMAGE"]), ("scale", .arr [.str "FLOAT"])]⟩)]
      [⟨5, 2, 0⟩]
      ⟨3, "X", some "t", none, [.num 7], [⟨"image", some 5⟩]⟩).inputs "scale" =
      some (.num 7) := by
  constructor
  · exact (link_precedence
      [("X", ⟨["image", "scale"],
        [("image", .arr [.str "IMAGE"]), ("scale", .arr [.str "FLOAT"])]⟩)]
      [⟨5, 2, 0⟩]
      ⟨3, "X", some "t", none, [.num 7], [⟨"image", some 5⟩]⟩
      ⟨"image", some 5⟩ 5 ⟨5, 2, 0⟩
      (List.mem_singleton.mpr rfl) rfl rfl (by simp)).1
  · rfl

/-- C5: when a required field not covered by a link carries the
`control_after_generate` flag and the widget value after the one it consumes
is a control token, both positions are consumed: the field binds the value
at the cursor and the next field is processed from the cursor advanced by
two, so no later field is bound to the control token. -/
theorem control_after_generate_skip
    (ir : List (String × JVal)) (linked : List String) (widgets : List JVal)
    (f : String) (rest : List String) (idx : Nat)
    (hnl : strInList f linked = false)
    (hidx : idx < widgets.length)
    (hctl : field_has_control (alookup ir f) = true)
    (hnext : idx + 1 < widgets.length)
    (hcv : is_control_value (widgets.getD (idx + 1) .null) = true) :
    assign_widgets ir linked widgets (f :: rest) idx =
      (f, widgets.getD idx .null) :: assign_widgets ir linked widgets rest (idx + 2) := by
  rw [assign_widgets_cons,
    if_neg (show ¬ (strInList f linked = true) from by rw [hnl]; exact Bool.false_ne_true),
    if_pos hidx, if_pos (by rw [hctl, hcv]; simp [hnext])]

/-- Concrete instance: schema field `seed` with a regenerate control and
widget sequence `[12345, "randomize"]` binds `seed = 12345`, consumes both
positions, and binds nothing to `"randomize"`. -/
theorem control_after_generate_skip_inst :
    assign_widgets
      [("seed", .arr [.str "INT", .obj [("control_after_generate", .bool true)]])]
      [] [.num 12345, .str "randomize"] ["seed", "steps"] 0 =
      [("seed", .num 12345)] ∧
    (∀ f v, (f, v) ∈ assign_widgets
      [("seed", .arr [.str "INT", .obj [("control_after_generate", .bool true)]])]
      [] [.num 12345, .str "randomize"] ["seed", "steps"] 0 →
      v ≠ .str "randomize") := by
  have h0 := control_after_generate_skip
    [("seed", .arr [.str "INT", .obj [("control_after_generate", .bool true)]])]
    [] [.num 12345, .str "randomize"] "seed" ["steps"] 0
    rfl (by decide) rfl (by decide) rfl
  have h1 : assign_widgets
      [("seed", .arr [.str "INT", .obj [("control_after_generate", .bool true)]])]
      [] [.num 12345, .str "randomize"] ["seed", "steps"] 0 =
      [("seed", .num 12345)] := by
    rw [h0]
    rfl
  refine ⟨h1, ?_⟩
  intro f v hm
  rw [h1] at hm
  have hv : v = .num 12345 := congrArg Prod.snd (List.mem_singleton.mp hm)
  subst hv
  intro hcon
  exact JVal.noConfusion hcon

/-! ### Artifact splitting and the wait loop (`oneapi.py`) -/

/-- The image extension set of `_split_media_by_suffix`. -/
def image_exts : List String := [".png", ".jpg", ".jpeg", ".webp", ".bmp", ".tiff"]

/-- The video extension set of `_split_media_by_suffix`. -/
def video_exts : List String := [".mp4", ".mov", ".avi", ".webm", ".gif"]

/-- The audio extension set of `_split_media_by_suffix`. -/
def audio_exts : List String :=
  [".mp3", ".wav", ".flac", ".ogg", ".aac", ".m4a", ".wma", ".opus"]

/-- URL construction for one normalised media entry (filename, subfolder,
storage type): `view?filename=...` with subfolder and type appended only
when truthy; a non-string filename then raises at `os.path.splitext`. -/
def media_entry_from (base_url : String) (f sub ty : JVal) :
    Res (Option (String × String)) :=
  match f with
  | .str fn =>
      .ok (some (base_url ++ "/view?filename=" ++ fn ++
        (if truthy sub then "&subfolder=" ++ pyStr sub else "") ++
        (if truthy ty then "&type=" ++ pyStr ty else ""), fn))
  | _ => .error .typeError

/-- Normalisation of one raw media entry: a two-element sequence is
`[filename, type]` with empty subfolder, a mapping supplies
`filename`/`subfolder`/`type` with defaults, anything else is logged and
skipped (`none`). -/
def media_entry (base_url : String) (m : JVal) : Res (Option (String × String)) :=
  match m with
  | .arr [f, t] => media_entry_from base_url f (.str "") t
  | .obj kvs =>
      media_entry_from base_url ((alookup kvs "filename").getD .null)
        ((alookup kvs "subfolder").getD (.str ""))
        ((alookup kvs "type").getD (.str "output"))
  | _ => .ok none

/-- The entry loop of `_split_media_by_suffix` over one raw media list:
classify each entry by lowercased filename extension into images, videos or
audios; an entry whose extension lies in none of the three sets is appended
nowhere. -/
def split_entries (base_url : String) :
    List JVal → Res (List String × List String × List String)
  | [] => .ok ([], [], [])
  | m :: rest =>
      match media_entry base_url m with
      | .error e => .error e
      | .ok none => split_entries base_url rest
      | .ok (some (url, fn)) =>
          match split_entries base_url rest with
          | .error e => .error e
          | .ok (i, v, a) =>
              if strInList (pyLower (pySplitextExt fn)) image_exts then
                .ok (url :: i, v, a)
              else if strInList (pyLower (pySplitextExt fn)) video_exts then
                .ok (i, url :: v, a)
              else if strInList (pyLower (pySplitextExt fn)) audio_exts then
                .ok (i, v, url :: a)
              else .ok (i, v, a)

/-- Python iteration over `node_output.get(key, [])`: absent key iterates
the empty default, a list iterates its items, a string iterates one-char
strings, a mapping iterates its keys; iterating any other value raises. -/
def entries_of (v : Option JVal) : Res (List JVal) :=
  match v with
  | none => .ok []
  | some (.arr xs) => .ok xs
  | some (.str s) => .ok (s.data.map (fun c => .str (String.mk [c])))
  | some (.obj kvs) => .ok (kvs.map (fun kv => .str kv.1))
  | some _ => .error .typeError

/-- `_split_media_by_suffix` on the three looked-up raw media lists
(`images`, `gifs`, `audio`), concatenating per-key contributions in key
order. -/
def split_media_from (base_url : String) (oi og oa : Option JVal) :
    Res (List String × List String × List String) :=
  match entries_of oi with
  | .error e => .error e
  | .ok e1 =>
      match split_entries base_url e1 with
      | .error e => .error e
      | .ok (i1, v1, a1) =>
          match entries_of og with
          | .error e => .error e
          | .ok e2 =>
              match split_entries base_url e2 with
              | .error e => .error e
              | .ok (i2, v2, a2) =>
                  match entries_of oa with
                  | .error e => .error e
                  | .ok e3 =>
                      match split_entries base_url e3 with
                      | .error e => .error e
                      | .ok (i3, v3, a3) =>
                          .ok (i1 ++ i2 ++ i3, v1 ++ v2 ++ v3, a1 ++ a2 ++ a3)

/-- `_split_media_by_suffix` from `oneapi.py`; `node_output.get` raises on a
non-mapping node output. -/
def split_media_by_suffix (node_output : JVal) (base_url : String) :
    Res (List String × List String × List String) :=
  match node_output with
  | .obj kvs =>
      split_media_from base_url (alookup kvs "images") (alookup kvs "gifs")
        (alookup kvs "audio")
  | _ => .error .typeError

/-- Normalisation of a node's `text` output: a string becomes a singleton,
a list is kept as is, anything else is stringified into a singleton. -/
def texts_of (v : JVal) : List JVal :=
  match v with
  | .str s => [.str s]
  | .arr xs => xs
  | other => [.str (pyStr other)]

/-- The collection loop of the completed branch: per node, split the media
lists by extension and record the non-empty per-type lists under the node
id; a present `text` key is recorded unconditionally (even when its list is
empty). -/
def collect_outputs (base_url : String) :
    List (String × JVal) →
    (List (String × List String) × List (String × List String) ×
     List (String × List String) × List (String × List JVal)) →
    Res (List (String × List String) × List (String × List String) ×
         List (String × List String) × List (String × List JVal))
  | [], acc => .ok acc
  | (nid, node_output) :: rest, (mi, mv, ma, mt) =>
      match split_media_by_suffix node_output base_url with
      | .error e => .error e
      | .ok (imgs, vids, auds) =>
          collect_outputs base_url rest
            ((if imgs.isEmpty then mi else aset mi nid imgs),
             (if vids.isEmpty then mv else aset mv nid vids),
             (if auds.isEmpty then ma else aset ma nid auds),
             (match node_output with
              | .obj kvs =>
                  match alookup kvs "text" with
                  | some tv => aset mt nid (texts_of tv)
                  | none => mt
              | _ => mt))

/-- `_map_outputs_by_var`: re-key per-node lists by the registered variable
name, falling back to the node id. -/
def map_outputs_by_var {α : Type} (output_id_2_var : List (String × String)) :
    List (String × List α) → List (String × List α) → List (String × List α)
  | [], acc => acc
  | (nid, data) :: rest, acc =>
      map_outputs_by_var output_id_2_var rest
        (aset acc ((alookup output_id_2_var nid).getD nid) data)

/-- `_extend_flat_list_from_dict`: concatenate the per-variable lists in
order. -/
def extend_flat_list_from_dict {α : Type} (m : List (String × List α)) : List α :=
  (m.map Prod.snd).flatten

/-- The caller-visible result dict of `_wait_for_results`: one field per
possible key, `none` meaning the key is absent. -/
structure WaitResult where
  status : String
  prompt_id : String
  duration : Option Int
  error : Option String
  outputs : Option JVal
  images : Option (List String)
  images_by_var : Option (List (String × List String))
  videos : Option (List String)
  videos_by_var : Option (List (String × List String))
  audios : Option (List String)
  audios_by_var : Option (List (String × List String))
  texts : Option (List JVal)
  texts_by_var : Option (List (String × List JVal))

/-- The result dict as initialised at the top of `_wait_for_results`: all
eight artifact fields are present and empty. -/
def init_result (pid : String) : WaitResult :=
  { status := "processing", prompt_id := pid, duration := none, error := none,
    outputs := none,
    images := some [], images_by_var := some [],
    videos := some [], videos_by_var := some [],
    audios := some [], audios_by_var := some [],
    texts := some [], texts_by_var := some [] }

/-- `result.pop(key, None)` guarded by `if not result.get(key)`: an empty
or absent value becomes absent. -/
def pop_if_empty {α : Type} : Option (List α) → Option (List α)
  | some [] => none
  | x => x

/-- The completed branch of `_wait_for_results`: record raw outputs, set
status `completed`, aggregate per type, re-key by variable name, flatten,
and pop the empty artifact fields. -/
def aggregate_outputs (output_id_2_var : List (String × String))
    (base_url : String) (outs : List (String × JVal)) (r : WaitResult) :
    Res WaitResult :=
  match collect_outputs base_url outs ([], [], [], []) with
  | .error e => .error e
  | .ok (mi, mv, ma, mt) =>
      let r1 := { r with outputs := some (.obj outs), status := "completed" }
      let r2 :=
        if mi.isEmpty then r1 else
          { r1 with images_by_var := some (map_outputs_by_var output_id_2_var mi []),
                    images := some (extend_flat_list_from_dict
                      (map_outputs_by_var output_id_2_var mi [])) }
      let r3 :=
        if mv.isEmpty then r2 else
          { r2 with videos_by_var := some (map_outputs_by_var output_id_2_var mv []),
                    videos := some (extend_flat_list_from_dict
                      (map_outputs_by_var output_id_2_var mv [])) }
      let r4 :=
        if ma.isEmpty then r3 else
          { r3 with audios_by_var := some (map_outputs_by_var output_id_2_var ma []),
                    audios := some (extend_flat_list_from_dict
                      (map_outputs_by_var output_id_2_var ma [])) }
      let r5 :=
        if mt.isEmpty then r4 else
          { r4 with texts_by_var := some (map_outputs_by_var output_id_2_var mt []),
                    texts := some (extend_flat_list_from_dict
                      (map_outputs_by_var output_id_2_var mt [])) }
      .ok { r5 with
        images := pop_if_empty r5.images,
        images_by_var := pop_if_empty r5.images_by_var,
        videos := pop_if_empty r5.videos,
        videos_by_var := pop_if_empty r5.videos_by_var,
        audios := pop_if_empty r5.audios,
        audios_by_var := pop_if_empty r5.audios_by_var,
        texts := pop_if_empty r5.texts,
        texts_by_var := pop_if_empty r5.texts_by_var }

/-- The exception texts of the `execution_error`-typed rows of a `messages`
list, in order; the join raises when a matching row has a missing or
non-string `exception_message` or a row does not unpack into two values
(only a two-element sequence or, vacuously, a two-character string
unpacks). -/
def collect_exec_errors : List JVal → Res (List String)
  | [] => .ok []
  | row :: rest =>
      match row with
      | .arr [t, b] =>
          match t with
          | .str s =>
              if s = "execution_error" then
                match b with
                | .obj bk =>
                    match alookup bk "exception_message" with
                    | some (.str msg) =>
                        match collect_exec_errors rest with
                        | .ok acc => .ok (msg :: acc)
                        | .error e => .error e
                    | _ => .error .typeError
                | _ => .error .typeError
              else collect_exec_errors rest
          | _ => collect_exec_errors rest
      | .str s2 =>
          if s2.data.length = 2 then collect_exec_errors rest
          else .error .typeError
      | _ => .error .typeError

/-- The error branch of `_wait_for_results`: status becomes `error`; a
truthy `messages` value is iterated for `execution_error` exception texts
joined by newlines, a falsy one yields the generic `Unknown error`
string. -/
def error_branch (r : WaitResult) (stkvs : List (String × JVal)) :
    Res WaitResult :=
  if truthy ((alookup stkvs "messages").getD .null) then
    match (alookup stkvs "messages").getD .null with
    | .arr rows =>
        match collect_exec_errors rows with
        | .ok errs =>
            .ok { r with status := "error", error := some (pyJoin "\n" errs) }
        | .error e => .error e
    | .str s =>
        match collect_exec_errors (s.data.map (fun c => .str (String.mk [c]))) with
        | .ok errs =>
            .ok { r with status := "error", error := some (pyJoin "\n" errs) }
        | .error e => .error e
    | .obj kvs2 =>
        match collect_exec_errors (kvs2.map (fun kv => .str kv.1)) with
        | .ok errs =>
            .ok { r with status := "error", error := some (pyJoin "\n" errs) }
        | .error e => .error e
    | _ => .error .typeError
  else .ok { r with status := "error", error := some "Unknown error" }

/-- The outputs check at the end of a poll: a present `outputs` mapping is
aggregated and returned, a present non-mapping raises at `.items()`, an
absent key keeps polling (`none`). -/
def outputs_branch (output_id_2_var : List (String × String)) (base_url : String)
    (phkvs : List (String × JVal)) (r : WaitResult) : Res (Option WaitResult) :=
  match alookup phkvs "outputs" with
  | some (.obj outs) => (aggregate_outputs output_id_2_var base_url outs r).map some
  | some _ => .error .typeError
  | none => .ok none

/-- Processing of one poll response that contains this prompt id: the error
branch when a truthy `status` mapping reports `status_str == "error"`, else
the outputs check. -/
def step_history (output_id_2_var : List (String × String)) (base_url : String)
    (r : WaitResult) (ph : JVal) : Res (Option WaitResult) :=
  match ph with
  | .obj phkvs =>
      match alookup phkvs "status" with
      | some st =>
          if truthy st then
            match st with
            | .obj stkvs =>
                match alookup stkvs "status_str" with
                | some (.str s) =>
                    if s = "error" then (error_branch r stkvs).map some
                    else outputs_branch output_id_2_var base_url phkvs r
                | _ => outputs_branch output_id_2_var base_url phkvs r
            | _ => .error .typeError
          else outputs_branch output_id_2_var base_url phkvs r
      | none => outputs_branch output_id_2_var base_url phkvs r
  | _ => .error .typeError

/-- One observation of the poll loop: the elapsed duration at the top of
the iteration and the parsed poll response (`none` for a non-200 history
response, which is retried). -/
structure PollStep where
  elapsed : Int
  resp : Option JVal

/-- Result of running the loop on a finite observation trace: a returned
result, a raised exception, or a trace exhausted while still polling. -/
inductive LoopResult where
  | ret (r : WaitResult)
  | err (e : Err)
  | pending

/-- The timeout test at the top of each iteration: only a present, positive
timeout is enforced, and only strictly exceeded durations trip it. -/
def timeout_hit (timeout : Option Int) (elapsed : Int) : Bool :=
  match timeout with
  | some t => decide (t > 0) && decide (elapsed > t)
  | none => false

/-- `_wait_for_results` from `oneapi.py`, driven by a finite trace of poll
observations: timeout check first, transport failures and responses without
this prompt id keep polling, then `step_history` decides between error
return, completed return, and further polling. -/
def wait_loop (pid : String) (timeout : Option Int)
    (output_id_2_var : List (String × String)) (base_url : String) :
    WaitResult → List PollStep → LoopResult
  | _, [] => .pending
  | r, step :: rest =>
      if timeout_hit timeout step.elapsed then
        .ret { r with duration := some step.elapsed, status := "timeout" }
      else
        match step.resp with
        | none => wait_loop pid timeout output_id_2_var base_url r rest
        | some hist =>
            match pyInStr pid hist with
            | .error e => .err e
            | .ok false => wait_loop pid timeout output_id_2_var base_url r rest
            | .ok true =>
                match hist with
                | .obj hkvs =>
                    match alookup hkvs pid with
                    | some ph =>
                        match step_history output_id_2_var base_url r ph with
                        | .error e => .err e
                        | .ok (some r2) => .ret r2
                        | .ok none =>
                            wait_loop pid timeout output_id_2_var base_url r rest
                    | none => .err .typeError
                | _ => .err .typeError

/-- `_wait_for_results` started from the freshly initialised result dict. -/
def wait_for_results (pid : String) (timeout : Option Int)
    (output_id_2_var : List (String × String)) (base_url : String)
    (trace : List PollStep) : LoopResult :=
  wait_loop pid timeout output_id_2_var base_url (init_result pid) trace

/-! ### C1, C7, C8: wait-loop results -/

theorem wait_loop_cons (pid : String) (tmo : Option Int)
    (ov : List (String × String)) (base : String) (r : WaitResult)
    (step : PollStep) (rest : List PollStep) :
    wait_loop pid tmo ov base r (step :: rest) =
      (if timeout_hit tmo step.elapsed then
         .ret { r with duration := some step.elapsed, status := "timeout" }
       else
         match step.resp with
         | none => wait_loop pid tmo ov base r rest
         | some hist =>
             match pyInStr pid hist with
             | .error e => .err e
             | .ok false => wait_loop pid tmo ov base r rest
             | .ok true =>
                 match hist with
                 | .obj hkvs =>
                     match alookup hkvs pid with
                     | some ph =>
                         match step_history ov base r ph with
                         | .error e => .err e
                         | .ok (some r2) => .ret r2
                         | .ok none => wait_loop pid tmo ov base r rest
                     | none => .err .typeError
                 | _ => .err .typeError) := rfl

/-- C1 evaluation: with `timeout = 2` and a trace in which the engine never
reports `outputs`, the loop returns status `timeout` with the prompt id —
but the returned dict still carries all eight artifact fields as present
empty values, because the empty-field pops run only in the completed
branch.  This contradicts the documented response shape (artifact fields
only present when there are results). -/
theorem wait_timeout_keeps_empty_artifact_fields :
    wait_for_results "p1" (some 2) [] "http://127.0.0.1:8188"
      [⟨1, some (.obj [])⟩, ⟨3, some (.obj [])⟩] =
      .ret { status := "timeout", prompt_id := "p1", duration := some 3,
             error := none, outputs := none,
             images := some [], images_by_var := some [],
             videos := some [], videos_by_var := some [],
             audios := some [], audios_by_var := some [],
             texts := some [], texts_by_var := some [] } := rfl

/-- C8 evaluation: a completed execution whose only node output is an
empty `text` list produces zero text artifacts, yet the returned dict keeps
`texts_by_var` with an empty inner list (only the flat `texts` key is
popped), contradicting the documented only-present-when-there-are-results
shape. -/
theorem completed_zero_text_artifacts_keeps_by_var :
    wait_for_results "p1" none [] "http://127.0.0.1:8188"
      [⟨0, some (.obj [("p1", .obj [("outputs",
        .obj [("9", .obj [("text", .arr [])])])])])⟩] =
      .ret { status := "completed", prompt_id := "p1", duration := none,
             error := none,
             outputs := some (.obj [("9", .obj [("text", .arr [])])]),
             images := none, images_by_var := none,
             videos := none, videos_by_var := none,
             audios := none, audios_by_var := none,
             texts := none, texts_by_var := some [("9", [])] } ∧
    extend_flat_list_from_dict [("9", ([] : List JVal))] = [] := ⟨rfl, rfl⟩

/-- C7 counterexample: a poll reporting `status_str == "error"` whose
messages list is non-empty but contains no `execution_error` row carries no
message text at all, yet the error field becomes the empty string, not the
generic `Unknown error` string. -/
theorem error_without_exec_error_rows_cex :
    wait_for_results "p1" none [] "http://127.0.0.1:8188"
      [⟨0, some (.obj [("p1", .obj [("status", .obj [
        ("status_str", .str "error"),
        ("messages", .arr [.arr [.str "execution_start", .obj []]])])])])⟩] =
      .ret { status := "error", prompt_id := "p1", duration := none,
             error := some "", outputs := none,
             images := some [], images_by_var := some [],
             videos := some [], videos_by_var := some [],
             audios := some [], audios_by_var := some [],
             texts := some [], texts_by_var := some [] } ∧
    collect_exec_errors [.arr [.str "execution_start", .obj []]] = .ok [] ∧
    ("" : String) ≠ "Unknown error" ∧ ("" : String) ≠ "unknown error" :=
  ⟨rfl, rfl, by decide, by decide⟩

/-- C7 (amended): on a poll reporting `status_str == "error"`, the result
transitions to status `error`; the error field is the newline-joined
concatenation of the exception texts of the `execution_error`-typed
messages whenever the messages list is present and non-empty (so a
non-empty list without `execution_error` rows yields the empty string), and
is the generic `Unknown error` string exactly when the messages value is
absent or falsy. -/
theorem execution_error_surfacing
    (pid base : String) (tmo : Option Int) (ov : List (String × String))
    (phkvs stkvs : List (String × JVal)) (el : Int)
    (hto : timeout_hit tmo el = false)
    (hst : alookup phkvs "status" = some (.obj stkvs))
    (hne : stkvs ≠ [])
    (hss : alookup stkvs "status_str" = some (.str "error")) :
    (∀ rows texts, alookup stkvs "messages" = some (.arr rows) → rows ≠ [] →
       collect_exec_errors rows = .ok texts →
       wait_loop pid tmo ov base (init_result pid)
         [⟨el, some (.obj [(pid, .obj phkvs)])⟩] =
         .ret { init_result pid with
           status := "error"
           error := some (pyJoin "\n" texts) }) ∧
    (truthy ((alookup stkvs "messages").getD .null) = false →
       wait_loop pid tmo ov base (init_result pid)
         [⟨el, some (.obj [(pid, .obj phkvs)])⟩] =
         .ret { init_result pid with
           status := "error"
           error := some "Unknown error" }) := by
  have hin : pyInStr pid (.obj [(pid, .obj phkvs)]) = .ok true := by
    simp [pyInStr, alookup]
  have hlk : alookup [(pid, JVal.obj phkvs)] pid = some (.obj phkvs) := by
    simp [alookup]
  have htr : truthy (.obj stkvs) = true := by
    cases stkvs with
    | nil => exact absurd rfl hne
    | cons a l => rfl
  have hsh : ∀ er, error_branch (init_result pid) stkvs = er →
      wait_loop pid tmo ov base (init_result pid)
        [⟨el, some (.obj [(pid, .obj phkvs)])⟩] =
        (match er with
         | .ok r2 => .ret r2
         | .error e => .err e) := by
    intro er her
    rw [wait_loop_cons]
    rw [hto]
    simp only [Bool.false_eq_true, if_false]
    rw [hin]
    dsimp only
    rw [hlk]
    dsimp only
    have hstep : step_history ov base (init_result pid) (.obj phkvs) =
        (error_branch (init_result pid) stkvs).map some := by
      unfold step_history
      dsimp only
      rw [hst]
      dsimp only
      rw [htr]
      simp only [if_true]
      rw [hss]
      dsimp only
      rw [if_pos (show ("error" : String) = "error" from rfl)]
    rw [hstep, her]
    cases er with
    | ok r2 => rfl
    | error e => rfl
  constructor
  · intro rows texts hmsgs hrne hcollect
    have htrr : truthy (.arr rows) = true := by
      cases rows with
      | nil => exact absurd rfl hrne
      | cons a l => rfl
    have herr : error_branch (init_result pid) stkvs =
        .ok { init_result pid with
          status := "error"
          error := some (pyJoin "\n" texts) } := by
      unfold error_branch
      rw [hmsgs]
      dsimp only [Option.getD]
      rw [htrr]
      simp only [if_true]
      rw [hcollect]
    exact hsh _ herr
  · intro hfalsy
    have herr : error_branch (init_result pid) stkvs =
        .ok { init_result pid with
          status := "error"
          error := some "Unknown error" } := by
      unfold error_branch
      rw [hfalsy]
      simp only [Bool.false_eq_true, if_false]
    exact hsh _ herr

/-- Concrete instances: two `execution_error` rows join their texts with a
newline; an absent messages key yields `Unknown error`. -/
theorem execution_error_surfacing_inst :
    wait_loop "p1" none [] "b" (init_result "p1")
      [⟨0, some (.obj [("p1", .obj [("status", .obj [
        ("status_str", .str "error"),
        ("messages", .arr [
          .arr [.str "execution_error", .obj [("exception_message", .str "boom")]],
          .arr [.str "execution_error", .obj [("exception_message", .str "bang")]]])])])])⟩] =
      .ret { init_result "p1" with
           status := "error"
           error := some "boom\nbang" } ∧
    wait_loop "p1" none [] "b" (init_result "p1")
      [⟨0, some (.obj [("p1", .obj [("status", .obj [
        ("status_str", .str "error")])])])⟩] =
      .ret { init_result "p1" with
           status := "error"
           error := some "Unknown error" } := by
  constructor
  · exact (execution_error_surfacing "p1" "b" none []
      [("status", .obj [("status_str", .str "error"),
        ("messages", .arr [
          .arr [.str "execution_error", .obj [("exception_message", .str "boom")]],
          .arr [.str "execution_error", .obj [("exception_message", .str "bang")]]])])]
      [("status_str", .str "error"),
       ("messages", .arr [
          .arr [.str "execution_error", .obj [("exception_message", .str "boom")]],
          .arr [.str "execution_error", .obj [("exception_message", .str "bang")]]])]
      0 rfl rfl (fun h => List.noConfusion h) rfl).1
      [.arr [.str "execution_error", .obj [("exception_message", .str "boom")]],
       .arr [.str "execution_error", .obj [("exception_message", .str "bang")]]]
      ["boom", "bang"] rfl (fun h => List.noConfusion h) rfl
  · exact (execution_error_surfacing "p1" "b" none []
      [("status", .obj [("status_str", .str "error")])]
      [("status_str", .str "error")]
      0 rfl rfl (fun h => List.noConfusion h) rfl).2 rfl

/-! ### C10: entries with unknown extensions are silently dropped -/

theorem mem_of_strInList {l : List String} {a : String}
    (h : strInList a l = true) : a ∈ l := by
  induction l with
  | nil => exact absurd h (by simp [strInList])
  | cons b t ih =>
      by_cases hb : b = a
      · subst hb
        exact List.mem_cons_self _ _
      · rw [strInList, Bool.or_eq_true] at h
        rcases h with h1 | h2
        · exact absurd (of_decide_eq_true h1) hb
        · exact List.mem_cons_of_mem _ (ih h2)

theorem split_entries_cons (base : String) (m : JVal) (rest : List JVal) :
    split_entries base (m :: rest) =
      (match media_entry base m with
       | .error e => .error e
       | .ok none => split_entries base rest
       | .ok (some (url, fn)) =>
           match split_entries base rest with
           | .error e => .error e
           | .ok (i, v, a) =>
               if strInList (pyLower (pySplitextExt fn)) image_exts then
                 .ok (url :: i, v, a)
               else if strInList (pyLower (pySplitextExt fn)) video_exts then
                 .ok (i, url :: v, a)
               else if strInList (pyLower (pySplitextExt fn)) audio_exts then
                 .ok (i, v, url :: a)
               else .ok (i, v, a)) := rfl

theorem split_media_from_img (base : String) (og oa : Option JVal)
    (L1 L2 : List JVal) (h : split_entries base L1 = split_entries base L2) :
    split_media_from base (some (.arr L1)) og oa =
      split_media_from base (some (.arr L2)) og oa := by
  unfold split_media_from
  dsimp only [entries_of]
  rw [h]

theorem split_media_from_gifs (base : String) (oi oa : Option JVal)
    (L1 L2 : List JVal) (h : split_entries base L1 = split_entries base L2) :
    split_media_from base oi (some (.arr L1)) oa =
      split_media_from base oi (some (.arr L2)) oa := by
  unfold split_media_from
  cases hoi : entries_of oi with
  | error er => rfl
  | ok e1 =>
      dsimp only
      cases hs1 : split_entries base e1 with
      | error er => rfl
      | ok t1 =>
          obtain ⟨i1, v1, a1⟩ := t1
          dsimp only [entries_of]
          rw [h]

theorem split_media_from_audio (base : String) (oi og : Option JVal)
    (L1 L2 : List JVal) (h : split_entries base L1 = split_entries base L2) :
    split_media_from base oi og (some (.arr L1)) =
      split_media_from base oi og (some (.arr L2)) := by
  unfold split_media_from
  cases hoi : entries_of oi with
  | error er => rfl
  | ok e1 =>
      dsimp only
      cases hs1 : split_entries base e1 with
      | error er => rfl
      | ok t1 =>
          obtain ⟨i1, v1, a1⟩ := t1
          dsimp only
          cases hog : entries_of og with
          | error er => rfl
          | ok e2 =>
              dsimp only
              cases hs2 : split_entries base e2 with
              | error er => rfl
              | ok t2 =>
                  obtain ⟨i2, v2, a2⟩ := t2
                  dsimp only [entries_of]
                  rw [h]

/-- C10: a well-formed media entry (URL constructible, string filename)
whose lowercased extension lies in none of the image, video or audio sets
contributes nothing to any artifact list and raises no error: the split of
any raw media list is unchanged by removing the entry, and so is the split
of a whole node output containing it under `images`, `gifs` or `audio`. -/
theorem unknown_extension_dropped
    (base : String) (e : JVal) (url fn : String)
    (hent : media_entry base e = .ok (some (url, fn)))
    (hi : strInList (pyLower (pySplitextExt fn)) image_exts = false)
    (hv : strInList (pyLower (pySplitextExt fn)) video_exts = false)
    (ha : strInList (pyLower (pySplitextExt fn)) audio_exts = false) :
    split_entries base [e] = .ok ([], [], []) ∧
    (∀ pre post, split_entries base (pre ++ e :: post) =
       split_entries base (pre ++ post)) ∧
    (∀ (kvs : List (String × JVal)) (k : String) (pre post : List JVal),
       strInList k ["images", "gifs", "audio"] = true →
       alookup kvs k = some (.arr (pre ++ e :: post)) →
       split_media_by_suffix (.obj kvs) base =
         split_media_by_suffix (.obj (aset kvs k (.arr (pre ++ post)))) base) := by
  have hdrop : ∀ post, split_entries base (e :: post) = split_entries base post := by
    intro post
    rw [split_entries_cons, hent]
    cases hsp : split_entries base post with
    | error er => rfl
    | ok t =>
        obtain ⟨i, v, a⟩ := t
        dsimp only
        rw [hi, hv, ha]
        simp
  have happ : ∀ pre post, split_entries base (pre ++ e :: post) =
      split_entries base (pre ++ post) := by
    intro pre
    induction pre with
    | nil => intro post; exact hdrop post
    | cons p pr ih =>
        intro post
        rw [List.cons_append, List.cons_append, split_entries_cons,
          split_entries_cons]
        cases hme : media_entry base p with
        | error er => rfl
        | ok o =>
            cases o with
            | none => exact ih post
            | some up =>
                obtain ⟨u2, f2⟩ := up
                rw [ih post]
  refine ⟨hdrop [], happ, ?_⟩
  intro kvs k pre post hk hlook
  have hm3 := mem_of_strInList hk
  have hother : ∀ k2, k2 ≠ k →
      alookup (aset kvs k (.arr (pre ++ post))) k2 = alookup kvs k2 := by
    intro k2 hne
    exact alookup_aset_ne _ _ _ _ (fun h => hne h.symm)
  rcases List.mem_cons.mp hm3 with h1 | h1
  · subst h1
    show split_media_from base (alookup kvs "images") (alookup kvs "gifs")
        (alookup kvs "audio") = split_media_from base
        (alookup (aset kvs "images" (.arr (pre ++ post))) "images")
        (alookup (aset kvs "images" (.arr (pre ++ post))) "gifs")
        (alookup (aset kvs "images" (.arr (pre ++ post))) "audio")
    rw [alookup_aset_self, hother "gifs" (by decide), hother "audio" (by decide),
      hlook]
    exact split_media_from_img base _ _ _ _ (happ pre post)
  rcases List.mem_cons.mp h1 with h2 | h2
  · subst h2
    show split_media_from base (alookup kvs "images") (alookup kvs "gifs")
        (alookup kvs "audio") = split_media_from base
        (alookup (aset kvs "gifs" (.arr (pre ++ post))) "images")
        (alookup (aset kvs "gifs" (.arr (pre ++ post))) "gifs")
        (alookup (aset kvs "gifs" (.arr (pre ++ post))) "audio")
    rw [alookup_aset_self, hother "images" (by decide), hother "audio" (by decide),
      hlook]
    exact split_media_from_gifs base _ _ _ _ (happ pre post)
  rcases List.mem_cons.mp h2 with h3 | h3
  · subst h3
    show split_media_from base (alookup kvs "images") (alookup kvs "gifs")
        (alookup kvs "audio") = split_media_from base
        (alookup (aset kvs "audio" (.arr (pre ++ post))) "images")
        (alookup (aset kvs "audio" (.arr (pre ++ post))) "gifs")
        (alookup (aset kvs "audio" (.arr (pre ++ post))) "audio")
    rw [alookup_aset_self, hother "images" (by decide), hother "gifs" (by decide),
      hlook]
    exact split_media_from_audio base _ _ _ _ (happ pre post)
  · cases h3

/-- Concrete instance: an `out.xyz` entry is URL-constructible but appears
in no artifact list, and removing it leaves the whole split unchanged. -/
theorem unknown_extension_dropped_inst :
    split_entries "http://h" [.obj [("filename", .str "out.xyz")]] =
      .ok ([], [], []) ∧
    split_media_by_suffix
      (.obj [("images", .arr [.obj [("filename", .str "out.xyz")]])]) "http://h" =
      split_media_by_suffix (.obj [("images", .arr [])]) "http://h" ∧
    media_entry "http://h" (.obj [("filename", .str "out.xyz")]) =
      .ok (some ("http://h/view?filename=out.xyz&type=output", "out.xyz")) := by
  refine ⟨?_, ?_, rfl⟩
  · exact (unknown_extension_dropped "http://h" (.obj [("filename", .str "out.xyz")])
      "http://h/view?filename=out.xyz&type=output" "out.xyz" rfl rfl rfl rfl).1
  · exact (unknown_extension_dropped "http://h" (.obj [("filename", .str "out.xyz")])
      "http://h/view?filename=out.xyz&type=output" "out.xyz" rfl rfl rfl rfl).2.2
      [("images", .arr [.obj [("filename", .str "out.xyz")]])] "images" [] []
      rfl rfl

/-! ### C9: heap model of `_apply_params_to_workflow`

The pure `apply_params_to_workflow` above captures the observable value
transform; the claim is about mutation, so here the Python object graph is
modelled explicitly: dictionaries live in a heap of cells, `copy.deepcopy`
allocates fresh cells, and item assignment overwrites one cell.  Sequences
and scalars are immutable in Python and are never mutated by the binder, so
they stay inline (`imm`); only a direct dictionary is a reference.  The
readback function recovers the JSON value of a cell together with the list
of cells it visits, which supports the frame reasoning. -/

/-- A Python value slot: an immutable value kept inline, or a reference to
a heap-allocated dict. -/
inductive HVal where
  | imm (v : JVal)
  | href (a : Nat)

/-- The heap: cell address is the list index. -/
structure Store where
  dicts : List (List (String × HVal))

/-- `d[k] = v` through a reference: overwrite cell `a`. -/
def storeSet (st : Store) (a : Nat) (k : String) (v : HVal) : Store :=
  ⟨st.dicts.set a (aset (st.dicts.getD a []) k v)⟩

/-- A value that is not itself a dict (dicts must live in cells). -/
def notObj : JVal → Bool
  | .obj _ => false
  | _ => true

/-- Readback of dict entries, parameterised by the cell reader used for
references: the entry list of JSON values and the list of cells visited. -/
def readEAux (rd : Nat → Option (JVal × List Nat)) :
    List (String × HVal) → Option (List (String × JVal) × List Nat)
  | [] => some ([], [])
  | (k, .imm v) :: rest =>
      if notObj v then
        match readEAux rd rest with
        | none => none
        | some (es, S) => some ((k, v) :: es, S)
      else none
  | (k, .href a) :: rest =>
      match rd a with
      | none => none
      | some (g, S1) =>
          match readEAux rd rest with
          | none => none
          | some (es, S2) => some ((k, g) :: es, S1 ++ S2)

/-- Fuel-indexed readback of a cell: the JSON value it denotes and the
list of cells visited (the cell itself first). -/
def readD : Nat → Store → Nat → Option (JVal × List Nat)
  | 0, _, _ => none
  | n + 1, st, a =>
      match st.dicts.get? a with
      | none => none
      | some d =>
          match readEAux (readD n st) d with
          | none => none
          | some (es, S) => some (.obj es, a :: S)

/-- Readback of dict entries with children read at the given fuel. -/
def readE (n : Nat) (st : Store) (d : List (String × HVal)) :
    Option (List (String × JVal) × List Nat) :=
  readEAux (readD n st) d

/-- Deep copy of dict entries, parameterised by the cell copier: threads
the growing store, copying children left to right. -/
def copyEAux (cp : Store → Nat → Option (Store × Nat)) :
    Store → List (String × HVal) → Option (Store × List (String × HVal))
  | st, [] => some (st, [])
  | st, (k, .imm v) :: rest =>
      match copyEAux cp st rest with
      | none => none
      | some (st1, d2) => some (st1, (k, .imm v) :: d2)
  | st, (k, .href a) :: rest =>
      match cp st a with
      | none => none
      | some (st1, a2) =>
          match copyEAux cp st1 rest with
          | none => none
          | some (st2, d2) => some (st2, (k, .href a2) :: d2)

/-- `copy.deepcopy` of the dict at a cell: copy the children, then append
the fresh parent cell, returning its address. -/
def copyD : Nat → Store → Nat → Option (Store × Nat)
  | 0, _, _ => none
  | n + 1, st, a =>
      match st.dicts.get? a with
      | none => none
      | some d =>
          match copyEAux (copyD n) st d with
          | none => none
          | some (st1, d2) => some (⟨st1.dicts ++ [d2]⟩, st1.dicts.length)

/-! Readback lemmas: validity, fuel monotonicity, frame. -/

theorem readEAux_valid {st : Store} {rd : Nat → Option (JVal × List Nat)}
    (hrd : ∀ a g S, rd a = some (g, S) → ∀ b ∈ S, ∃ d2, st.dicts.get? b = some d2) :
    ∀ {d es S}, readEAux rd d = some (es, S) →
    ∀ b ∈ S, ∃ d2, st.dicts.get? b = some d2 := by
  intro d
  induction d with
  | nil =>
      intro es S h b hb
      simp [readEAux] at h
      obtain ⟨h1, h2⟩ := h
      subst h2
      cases hb
  | cons p rest ih =>
      intro es S h b hb
      obtain ⟨k, hv⟩ := p
      cases hv with
      | imm v =>
          rw [readEAux] at h
          by_cases hno : notObj v = true
          · rw [if_pos hno] at h
            cases hrec : readEAux rd rest with
            | none => rw [hrec] at h; cases h
            | some r =>
                obtain ⟨es2, S2⟩ := r
                rw [hrec] at h
                simp at h
                obtain ⟨h1, h2⟩ := h
                subst h2
                exact ih hrec b hb
          · rw [if_neg hno] at h; cases h
      | href a =>
          rw [readEAux] at h
          cases hr : rd a with
          | none => rw [hr] at h; cases h
          | some r1 =>
              obtain ⟨g1, S1⟩ := r1
              rw [hr] at h
              cases hrec : readEAux rd rest with
              | none => rw [hrec] at h; cases h
              | some r2 =>
                  obtain ⟨es2, S2⟩ := r2
                  rw [hrec] at h
                  simp at h
                  obtain ⟨h1, h2⟩ := h
                  subst h2
                  rcases List.mem_append.mp hb with h1 | h2
                  · exact hrd a g1 S1 hr b h1
                  · exact ih hrec b h2

theorem readD_valid :
    ∀ (n : Nat) (st : Store) (a : Nat) (g : JVal) (S : List Nat),
    readD n st a = some (g, S) → ∀ b ∈ S, ∃ d2, st.dicts.get? b = some d2 := by
  intro n
  induction n with
  | zero => intro st a g S h; simp [readD] at h
  | succ n ih =>
      intro st a g S h b hb
      rw [readD] at h
      cases hget : st.dicts.get? a with
      | none => rw [hget] at h; cases h
      | some d =>
          rw [hget] at h
          dsimp only at h
          cases hre : readEAux (readD n st) d with
          | none => rw [hre] at h; cases h
          | some r =>
              obtain ⟨es, S2⟩ := r
              rw [hre] at h
              simp at h
              obtain ⟨h1, h2⟩ := h
              subst h2
              rcases List.mem_cons.mp hb with h1 | h2
              · subst h1; exact ⟨d, hget⟩
              · exact readEAux_valid (fun a2 g2 S3 hr => ih st a2 g2 S3 hr)
                  hre b h2

theorem readEAux_mono {rd rd2 : Nat → Option (JVal × List Nat)}
    (hrd : ∀ a r, rd a = some r → rd2 a = some r) :
    ∀ {d r}, readEAux rd d = some r → readEAux rd2 d = some r := by
  intro d
  induction d with
  | nil => intro r h; exact h
  | cons p rest ih =>
      intro r h
      obtain ⟨k, hv⟩ := p
      cases hv with
      | imm v =>
          rw [readEAux] at h ⊢
          by_cases hno : notObj v = true
          · rw [if_pos hno] at h ⊢
            cases hrec : readEAux rd rest with
            | none => rw [hrec] at h; cases h
            | some r2 =>
                rw [hrec] at h
                rw [ih hrec]
                exact h
          · rw [if_neg hno] at h; cases h
      | href a =>
          rw [readEAux] at h ⊢
          cases hr : rd a with
          | none => rw [hr] at h; cases h
          | some r1 =>
              rw [hr] at h
              rw [hrd a r1 hr]
              cases hrec : readEAux rd rest with
              | none => rw [hrec] at h; cases h
              | some r2 =>
                  rw [hrec] at h
                  rw [ih hrec]
                  exact h

theorem readD_mono :
    ∀ (n : Nat) (st : Store) (a : Nat) (r : JVal × List Nat),
    readD n st a = some r → readD (n + 1) st a = some r := by
  intro n
  induction n with
  | zero => intro st a r h; simp [readD] at h
  | succ n ih =>
      intro st a r h
      rw [readD] at h ⊢
      cases hget : st.dicts.get? a with
      | none => rw [hget] at h; cases h
      | some d =>
          rw [hget] at h
          dsimp only at h
          cases hre : readEAux (readD n st) d with
          | none => rw [hre] at h; cases h
          | some r2 =>
              obtain ⟨es, S2⟩ := r2
              rw [hre] at h
              dsimp only
              rw [readEAux_mono (fun a2 r3 hr => ih st a2 r3 hr) hre]
              exact h

theorem readD_mono_le {n m : Nat} (hnm : n ≤ m) :
    ∀ {st : Store} {a : Nat} {r : JVal × List Nat},
    readD n st a = some r → readD m st a = some r := by
  induction hnm with
  | refl => intro st a r h; exact h
  | step h2 ih =>
      intro st a r h
      exact readD_mono _ _ _ _ (ih h)

theorem readE_mono_le {n m : Nat} (hnm : n ≤ m) {st : Store}
    {d : List (String × HVal)} {r : List (String × JVal) × List Nat}
    (h : readE n st d = some r) : readE m st d = some r :=
  readEAux_mono (fun a r2 hr => readD_mono_le hnm hr) h

theorem readEAux_frameP {rd rd2 : Nat → Option (JVal × List Nat)}
    {P : Nat → Prop}
    (hrd : ∀ a g S1, rd a = some (g, S1) → (∀ b ∈ S1, P b) →
      rd2 a = some (g, S1)) :
    ∀ {d es S}, readEAux rd d = some (es, S) → (∀ b ∈ S, P b) →
    readEAux rd2 d = some (es, S) := by
  intro d
  induction d with
  | nil => intro es S h _; exact h
  | cons p rest ih =>
      intro es S h hP
      obtain ⟨k, hv⟩ := p
      cases hv with
      | imm v =>
          rw [readEAux] at h ⊢
          by_cases hno : notObj v = true
          · rw [if_pos hno] at h ⊢
            cases hrec : readEAux rd rest with
            | none => rw [hrec] at h; cases h
            | some r2 =>
                obtain ⟨es2, S2⟩ := r2
                rw [hrec] at h
                have hSS : S2 = S := by
                  simpa using congrArg (fun o => o.map Prod.snd) h
                subst hSS
                rw [ih hrec hP]
                exact h
          · rw [if_neg hno] at h; cases h
      | href a =>
          rw [readEAux] at h ⊢
          cases hr : rd a with
          | none => rw [hr] at h; cases h
          | some r1 =>
              obtain ⟨g1, S1⟩ := r1
              rw [hr] at h
              cases hrec : readEAux rd rest with
              | none => rw [hrec] at h; cases h
              | some r2 =>
                  obtain ⟨es2, S2⟩ := r2
                  rw [hrec] at h
                  have hSS : S1 ++ S2 = S := by
                    simpa using congrArg (fun o => o.map Prod.snd) h
                  have hP1 : ∀ b ∈ S1, P b := by
                    intro b hb
                    exact hP b (by rw [← hSS]; exact List.mem_append.mpr (Or.inl hb))
                  have hP2 : ∀ b ∈ S2, P b := by
                    intro b hb
                    exact hP b (by rw [← hSS]; exact List.mem_append.mpr (Or.inr hb))
                  rw [hrd a g1 S1 hr hP1, ih hrec hP2]
                  exact h

theorem readD_frame (st st2 : Store) :
    ∀ (n : Nat) (a : Nat) (g : JVal) (S : List Nat),
    readD n st a = some (g, S) →
    (∀ b ∈ S, st2.dicts.get? b = st.dicts.get? b) →
    readD n st2 a = some (g, S) := by
  intro n
  induction n with
  | zero => intro a g S h; simp [readD] at h
  | succ n ih =>
      intro a g S h hP
      rw [readD] at h ⊢
      cases hget : st.dicts.get? a with
      | none => rw [hget] at h; cases h
      | some d =>
          rw [hget] at h
          dsimp only at h
          cases hre : readEAux (readD n st) d with
          | none => rw [hre] at h; cases h
          | some r2 =>
              obtain ⟨es, S2⟩ := r2
              rw [hre] at h
              dsimp only at h
              have hobj : JVal.obj es = g ∧ a :: S2 = S := by
                have h2 := Option.some.inj h
                exact ⟨congrArg Prod.fst h2, congrArg Prod.snd h2⟩
              obtain ⟨hg, hS⟩ := hobj
              subst hg
              subst hS
              have hga : st2.dicts.get? a = some d := by
                rw [hP a (List.mem_cons_self _ _), hget]
              rw [hga]
              dsimp only
              have hP2 : ∀ b ∈ S2, st2.dicts.get? b = st.dicts.get? b := by
                intro b hb
                exact hP b (List.mem_cons_of_mem _ hb)
              rw [readEAux_frameP (fun a2 g2 S3 hr hPb => ih a2 g2 S3 hr hPb)
                hre hP2]

theorem readE_frame {st st2 : Store} {n : Nat} {d : List (String × HVal)}
    {es : List (String × JVal)} {S : List Nat}
    (h : readE n st d = some (es, S))
    (hP : ∀ b ∈ S, st2.dicts.get? b = st.dicts.get? b) :
    readE n st2 d = some (es, S) :=
  readEAux_frameP (fun a g S1 hr hPb => readD_frame st st2 n a g S1 hr hPb) h hP

theorem get_append_of_valid {l news : List (List (String × HVal))} {b : Nat}
    {d : List (String × HVal)} (h : l.get? b = some d) :
    (l ++ news).get? b = some d := by
  have hlt : b < l.length := by
    by_contra hge
    rw [List.get?_eq_none.mpr (Nat.le_of_not_lt hge)] at h
    cases h
  rw [List.get?_append hlt]
  exact h

theorem readD_ext {st : Store} {news : List (List (String × HVal))}
    {n : Nat} {a : Nat} {g : JVal} {S : List Nat}
    (h : readD n st a = some (g, S)) :
    readD n ⟨st.dicts ++ news⟩ a = some (g, S) := by
  refine readD_frame st _ n a g S h ?_
  intro b hb
  obtain ⟨d2, hd2⟩ := readD_valid n st a g S h b hb
  rw [hd2]
  exact get_append_of_valid hd2

theorem readE_ext {st : Store} {news : List (List (String × HVal))}
    {n : Nat} {d : List (String × HVal)} {es : List (String × JVal)}
    {S : List Nat} (h : readE n st d = some (es, S)) :
    readE n ⟨st.dicts ++ news⟩ d = some (es, S) := by
  refine readE_frame h ?_
  intro b hb
  obtain ⟨d2, hd2⟩ := readEAux_valid
    (fun a2 g2 S3 hr => readD_valid n st a2 g2 S3 hr) h b hb
  rw [hd2]
  exact get_append_of_valid hd2

theorem readD_ext2 {st st2 : Store} {news : List (List (String × HVal))}
    {n a : Nat} {r : JVal × List Nat}
    (hext : st2.dicts = st.dicts ++ news) (h : readD n st a = some r) :
    readD n st2 a = some r := by
  obtain ⟨g, S⟩ := r
  have he : st2 = ⟨st.dicts ++ news⟩ := by
    cases st2 with
    | mk ds =>
        dsimp at hext
        rw [hext]
  rw [he]
  exact readD_ext h

theorem readEAux_ext2 {st st2 : Store} {news : List (List (String × HVal))}
    {n : Nat} {d : List (String × HVal)} {r : List (String × JVal) × List Nat}
    (hext : st2.dicts = st.dicts ++ news)
    (h : readEAux (readD n st) d = some r) :
    readEAux (readD n st2) d = some r := by
  obtain ⟨es, S⟩ := r
  have he : st2 = ⟨st.dicts ++ news⟩ := by
    cases st2 with
    | mk ds =>
        dsimp at hext
        rw [hext]
  rw [he]
  exact readE_ext h

theorem copyE_correct_of (n : Nat)
    (hD : ∀ st a a2 st1 g S, copyD n st a = some (st1, a2) →
      readD n st a = some (g, S) →
      ∃ news S2, st1.dicts = st.dicts ++ news ∧
        st.dicts.length ≤ a2 ∧ a2 < st1.dicts.length ∧
        readD n st1 a2 = some (g, a2 :: S2) ∧
        (∀ b ∈ S2, st.dicts.length ≤ b ∧ b < st1.dicts.length) ∧
        (a2 :: S2).Nodup) :
    ∀ (d : List (String × HVal)) (st st1 : Store) (d2 : List (String × HVal))
      (es : List (String × JVal)) (S : List Nat),
    copyEAux (copyD n) st d = some (st1, d2) →
    readEAux (readD n st) d = some (es, S) →
    ∃ news S2, st1.dicts = st.dicts ++ news ∧
      readEAux (readD n st1) d2 = some (es, S2) ∧
      (∀ b ∈ S2, st.dicts.length ≤ b ∧ b < st1.dicts.length) ∧
      S2.Nodup := by
  intro d
  induction d with
  | nil =>
      intro st st1 d2 es S hc hr
      simp [copyEAux] at hc
      simp [readEAux] at hr
      obtain ⟨hc1, hc2⟩ := hc
      obtain ⟨hr1, hr2⟩ := hr
      subst hc1
      subst hc2
      subst hr1
      subst hr2
      exact ⟨[], [], by simp, rfl, by simp, List.nodup_nil⟩
  | cons p rest ih =>
      intro st st1 d2 es S hc hr
      obtain ⟨k, hv⟩ := p
      cases hv with
      | imm v =>
          rw [copyEAux] at hc
          rw [readEAux] at hr
          by_cases hno : notObj v = true
          · rw [if_pos hno] at hr
            cases hcr : copyEAux (copyD n) st rest with
            | none => rw [hcr] at hc; cases hc
            | some r1 =>
                obtain ⟨stR, d2r⟩ := r1
                rw [hcr] at hc
                dsimp only at hc
                cases hrr : readEAux (readD n st) rest with
                | none => rw [hrr] at hr; cases hr
                | some r2 =>
                    obtain ⟨esr, Sr⟩ := r2
                    rw [hrr] at hr
                    dsimp only at hr
                    obtain ⟨hc1, hc2⟩ := Prod.mk.injEq .. ▸ Option.some.inj hc
                    obtain ⟨hr1, hr2⟩ := Prod.mk.injEq .. ▸ Option.some.inj hr
                    subst hc1
                    subst hc2
                    subst hr1
                    subst hr2
                    obtain ⟨news, S2, hext, hread, hbnd, hnd⟩ :=
                      ih st stR d2r esr Sr hcr hrr
                    refine ⟨news, S2, hext, ?_, hbnd, hnd⟩
                    rw [readEAux, if_pos hno, hread]
          · rw [if_neg hno] at hr; cases hr
      | href a =>
          rw [copyEAux] at hc
          rw [readEAux] at hr
          cases hca : copyD n st a with
          | none => rw [hca] at hc; cases hc
          | some r1 =>
              obtain ⟨stA, a2⟩ := r1
              rw [hca] at hc
              dsimp only at hc
              cases hra : readD n st a with
              | none => rw [hra] at hr; cases hr
              | some r2 =>
                  obtain ⟨g, Sa⟩ := r2
                  rw [hra] at hr
                  dsimp only at hr
                  cases hcr : copyEAux (copyD n) stA rest with
                  | none => rw [hcr] at hc; cases hc
                  | some r3 =>
                      obtain ⟨st2, d2r⟩ := r3
                      rw [hcr] at hc
                      dsimp only at hc
                      cases hrr : readEAux (readD n st) rest with
                      | none => rw [hrr] at hr; cases hr
                      | some r4 =>
                          obtain ⟨esr, Sr⟩ := r4
                          rw [hrr] at hr
                          dsimp only at hr
                          obtain ⟨hc1, hc2⟩ := Prod.mk.injEq .. ▸ Option.some.inj hc
                          obtain ⟨hr1, hr2⟩ := Prod.mk.injEq .. ▸ Option.some.inj hr
                          subst hc1
                          subst hc2
                          subst hr1
                          subst hr2
                          obtain ⟨newsA, S2a, hextA, hage, halt, hreadA, hbndA, hndA⟩ :=
                            hD st a a2 stA g Sa hca hra
                          have hrrA : readEAux (readD n stA) rest = some (esr, Sr) :=
                            readEAux_ext2 hextA hrr
                          obtain ⟨newsR, S2r, hextR, hreadR, hbndR, hndR⟩ :=
                            ih stA st2 d2r esr Sr hcr hrrA
                          have hlenA : st.dicts.length ≤ stA.dicts.length := by
                            rw [hextA]
                            simp
                          have hlenR : stA.dicts.length ≤ st2.dicts.length := by
                            rw [hextR]
                            simp
                          have hreadA2 : readD n st2 a2 = some (g, a2 :: S2a) :=
                            readD_ext2 hextR hreadA
                          refine ⟨newsA ++ newsR, (a2 :: S2a) ++ S2r, ?_, ?_, ?_, ?_⟩
                          · rw [hextR, hextA, List.append_assoc]
                          · rw [readEAux, hreadA2]
                            dsimp only
                            rw [hreadR]
                          · intro b hb
                            rcases List.mem_append.mp hb with h1 | h1
                            · rcases List.mem_cons.mp h1 with h2 | h2
                              · subst h2
                                exact ⟨hage, Nat.lt_of_lt_of_le halt hlenR⟩
                              · obtain ⟨hb1, hb2⟩ := hbndA b h2
                                exact ⟨hb1, Nat.lt_of_lt_of_le hb2 hlenR⟩
                            · obtain ⟨hb1, hb2⟩ := hbndR b h1
                              exact ⟨Nat.le_trans hlenA hb1, hb2⟩
                          · refine List.Nodup.append hndA hndR ?_
                            intro b hb1 hb2
                            have hlt : b < stA.dicts.length := by
                              rcases List.mem_cons.mp hb1 with h2 | h2
                              · subst h2; exact halt
                              · exact (hbndA b h2).2
                            have hge : stA.dicts.length ≤ b := (hbndR b hb2).1
                            exact absurd hge (Nat.not_le_of_lt hlt)

theorem copyD_correct :
    ∀ (n : Nat) (st : Store) (a a2 : Nat) (st1 : Store) (g : JVal) (S : List Nat),
    copyD n st a = some (st1, a2) → readD n st a = some (g, S) →
    ∃ news S2, st1.dicts = st.dicts ++ news ∧
      st.dicts.length ≤ a2 ∧ a2 < st1.dicts.length ∧
      readD n st1 a2 = some (g, a2 :: S2) ∧
      (∀ b ∈ S2, st.dicts.length ≤ b ∧ b < st1.dicts.length) ∧
      (a2 :: S2).Nodup := by
  intro n
  induction n with
  | zero => intro st a a2 st1 g S hc; simp [copyD] at hc
  | succ n ih =>
      intro st a a2 st1 g S hc hr
      rw [copyD] at hc
      rw [readD] at hr
      cases hget : st.dicts.get? a with
      | none => rw [hget] at hc; cases hc
      | some d =>
          rw [hget] at hc hr
          dsimp only at hc hr
          cases hce : copyEAux (copyD n) st d with
          | none => rw [hce] at hc; cases hc
          | some r1 =>
              obtain ⟨stE, d2⟩ := r1
              rw [hce] at hc
              dsimp only at hc
              cases hre : readEAux (readD n st) d with
              | none => rw [hre] at hr; cases hr
              | some r2 =>
                  obtain ⟨es, SE⟩ := r2
                  rw [hre] at hr
                  dsimp only at hr
                  obtain ⟨hc1, hc2⟩ := Prod.mk.injEq .. ▸ Option.some.inj hc
                  obtain ⟨hr1, hr2⟩ := Prod.mk.injEq .. ▸ Option.some.inj hr
                  subst hc1
                  subst hc2
                  subst hr1
                  subst hr2
                  obtain ⟨news, S2, hext, hread, hbnd, hnd⟩ :=
                    copyE_correct_of n ih d st stE d2 es SE hce hre
                  have hgetNew : (stE.dicts ++ [d2]).get? stE.dicts.length = some d2 :=
                    List.get?_concat_length _ _
                  refine ⟨news ++ [d2], S2, ?_, ?_, ?_, ?_, ?_, ?_⟩
                  · show stE.dicts ++ [d2] = st.dicts ++ (news ++ [d2])
                    rw [hext, List.append_assoc]
                  · show st.dicts.length ≤ stE.dicts.length
                    rw [hext]; simp
                  · show stE.dicts.length < (stE.dicts ++ [d2]).length
                    simp
                  · rw [readD]
                    show (match (stE.dicts ++ [d2]).get? stE.dicts.length with
                      | none => none
                      | some d =>
                          match readEAux (readD n ⟨stE.dicts ++ [d2]⟩) d with
                          | none => none
                          | some (es, S) => some (JVal.obj es, stE.dicts.length :: S)) =
                      some (JVal.obj es, stE.dicts.length :: S2)
                    rw [hgetNew]
                    dsimp only
                    have hreadExt : readEAux (readD n ⟨stE.dicts ++ [d2]⟩) d2 =
                        some (es, S2) :=
                      readEAux_ext2 (show (⟨stE.dicts ++ [d2]⟩ : Store).dicts =
                        stE.dicts ++ [d2] from rfl) hread
                    rw [hreadExt]
                  · intro b hb
                    obtain ⟨hb1, hb2⟩ := hbnd b hb
                    exact ⟨hb1, by simp; exact Nat.lt_succ_of_lt hb2⟩
                  · refine List.nodup_cons.mpr ⟨?_, hnd⟩
                    intro hmem
                    exact absurd (hbnd _ hmem).2 (Nat.lt_irrefl _)

/-- Heap-level `k in v` (for `_is_valid_node`): a reference is a dict
(key test); an inline value behaves as in the pure model. -/
def pyInH (st : Store) (k : String) (hv : HVal) : Res Bool :=
  match hv with
  | .href a =>
      match st.dicts.get? a with
      | some d => .ok (alookup d k).isSome
      | none => .error .typeError
  | .imm w => pyInStr k w

/-- Heap-level `_is_valid_node` on a workflow value slot. -/
def is_valid_nodeH (st : Store) (hv : HVal) : Res Bool :=
  match hv with
  | .href na =>
      match st.dicts.get? na with
      | some nd =>
          match alookup nd "_meta" with
          | some mv => pyInH st "title" mv
          | none => .ok false
      | none => .error .typeError
  | .imm _ => .ok false

/-- Heap-level `node_data["_meta"]["title"]` followed by `title.split`. -/
def get_node_titleH (st : Store) (nd : List (String × HVal)) : Res String :=
  match alookup nd "_meta" with
  | some (.href ma) =>
      match st.dicts.get? ma with
      | some md =>
          match alookup md "title" with
          | some (.imm (.str t)) => .ok t
          | some _ => .error .typeError
          | none => .error .typeError
      | none => .error .typeError
  | some (.imm _) => .error .typeError
  | none => .error .typeError

/-- Heap-level `_set_node_param`: create a fresh empty `inputs` dict when
the key is absent, then assign the field through the reference; an inline
(non-dict) `inputs` value raises. -/
def set_node_paramH (st : Store) (na : Nat) (field : String) (v : JVal) :
    Res Store :=
  match alookup (st.dicts.getD na []) "inputs" with
  | none =>
      let ia := st.dicts.length
      let st1 : Store := ⟨st.dicts ++ [[]]⟩
      let st2 := storeSet st1 na "inputs" (.href ia)
      .ok (storeSet st2 ia field (.imm v))
  | some (.href ia) => .ok (storeSet st ia field (.imm v))
  | some (.imm _) => .error .typeError

/-- Heap-level `_process_param_marker` on the node cell `na`. -/
def process_param_markerH (resolver : Resolver) (st : Store) (na : Nat)
    (var_spec : String) (params : List (String × JVal)) : Res Store :=
  if !pyContainsChar var_spec '.' then .ok st
  else
    match alookup params (pySplitDot1 var_spec).1 with
    | none => .ok st
    | some pv =>
        if (match alookup (st.dicts.getD na []) "class_type" with
            | some (.imm (.str t)) => strInList t MEDIA_UPLOAD_NODE_TYPES
            | _ => false) then
          match pv with
          | .str s =>
              if pyStartsWith s "http://" || pyStartsWith s "https://" then
                match resolver s with
                | .ok name =>
                    set_node_paramH st na (pySplitDot1 var_spec).2 (.str name)
                | .error e => .error (.raised ("Media upload failed: " ++ e))
              else set_node_paramH st na (pySplitDot1 var_spec).2 pv
          | _ => set_node_paramH st na (pySplitDot1 var_spec).2 pv
        else set_node_paramH st na (pySplitDot1 var_spec).2 pv

/-- Heap-level loop of `_process_node_params` over the title segments. -/
def process_partsH (resolver : Resolver) (params : List (String × JVal)) :
    List String → Store → Nat → Res Store
  | [], st, _ => .ok st
  | part :: rest, st, na =>
      if pyStartsWith (pyStrip part) "$" then
        match process_param_markerH resolver st na (pyDropFirst (pyStrip part)) params with
        | .ok st2 => process_partsH resolver params rest st2 na
        | .error e => .error e
      else process_partsH resolver params rest st na

/-- Heap-level `_process_node_params` on the node cell `na`. -/
def process_node_paramsH (resolver : Resolver) (st : Store) (na : Nat)
    (params : List (String × JVal)) : Res Store :=
  match get_node_titleH st (st.dicts.getD na []) with
  | .ok title => process_partsH resolver params (pySplitChar title ',') st na
  | .error e => .error e

/-- Heap-level loop of `_apply_params_to_workflow` over the copied top
dict's entries. -/
def apply_nodesH (resolver : Resolver) (params : List (String × JVal)) :
    List (String × HVal) → Store → Res Store
  | [], st => .ok st
  | (_, hv) :: rest, st =>
      match is_valid_nodeH st hv with
      | .error e => .error e
      | .ok true =>
          match hv with
          | .href na =>
              match process_node_paramsH resolver st na params with
              | .ok st2 => apply_nodesH resolver params rest st2
              | .error e => .error e
          | .imm _ => .error .typeError
      | .ok false => apply_nodesH resolver params rest st

/-- Heap-level `_apply_params_to_workflow`: deep-copy the workflow cell,
then process the copied nodes in place.  `none` means the copy fuel ran
out (not a Python behaviour). -/
def apply_params_to_workflow_heap (resolver : Resolver) (fuel : Nat)
    (st : Store) (wa : Nat) (params : List (String × JVal)) :
    Option (Res (Store × Nat)) :=
  match copyD fuel st wa with
  | none => none
  | some (st1, wa2) =>
      match st1.dicts.get? wa2 with
      | none => some (.error .typeError)
      | some entries =>
          some ((apply_nodesH resolver params entries st1).map (fun st2 => (st2, wa2)))

/-! Correspondence between heap readback and the pure model.  The plan:
a node cell whose entries read back to pure entries with a duplicate-free
reach list simulates the pure `_set_node_param` / `_process_param_marker` /
`_process_node_params` steps, and the whole `_apply_params_to_workflow`
loop then simulates the pure transform while leaving every cell of the
caller's graph untouched. -/

theorem get_lt_of_get? {α : Type} {l : List α} {b : Nat} {x : α}
    (h : l.get? b = some x) : b < l.length := by
  by_contra hge
  rw [List.get?_eq_none.mpr (Nat.le_of_not_lt hge)] at h
  cases h

theorem getD_of_get? {α : Type} {l : List α} {b : Nat} {x : α}
    (h : l.get? b = some x) : l.getD b x = x := by
  rw [List.getD_eq_get?, h]
  rfl

theorem getD_nil_of_get? {l : List (List (String × HVal))} {b : Nat}
    {x : List (String × HVal)} (h : l.get? b = some x) : l.getD b [] = x := by
  rw [List.getD_eq_get?, h]
  rfl

theorem readD_shape {n : Nat} {st : Store} {a : Nat} {g : JVal} {S : List Nat}
    (h : readD n st a = some (g, S)) :
    ∃ k d es T, n = k + 1 ∧ st.dicts.get? a = some d ∧
      readEAux (readD k st) d = some (es, T) ∧ g = .obj es ∧ S = a :: T := by
  cases n with
  | zero => simp [readD] at h
  | succ k =>
      rw [readD] at h
      cases hget : st.dicts.get? a with
      | none => rw [hget] at h; cases h
      | some d =>
          rw [hget] at h
          dsimp only at h
          cases hre : readEAux (readD k st) d with
          | none => rw [hre] at h; cases h
          | some r =>
              obtain ⟨es, T⟩ := r
              rw [hre] at h
              dsimp only at h
              obtain ⟨h1, h2⟩ := Prod.mk.injEq .. ▸ Option.some.inj h
              exact ⟨k, d, es, T, rfl, rfl, hre, h1.symm, h2.symm⟩

theorem storeSet_length (st : Store) (a : Nat) (k : String) (v : HVal) :
    (storeSet st a k v).dicts.length = st.dicts.length := by
  simp [storeSet]

theorem storeSet_get_ne (st : Store) (a b : Nat) (k : String) (v : HVal)
    (h : b ≠ a) : (storeSet st a k v).dicts.get? b = st.dicts.get? b := by
  simp only [storeSet]
  exact List.get?_set_ne _ _ (fun he => h he.symm)

theorem storeSet_get_self {st : Store} {a : Nat} {d : List (String × HVal)}
    (h : st.dicts.get? a = some d) (k : String) (v : HVal) :
    (storeSet st a k v).dicts.get? a = some (aset d k v) := by
  have hlt : a < st.dicts.length := get_lt_of_get? h
  simp only [storeSet, getD_nil_of_get? h]
  rw [List.get?_set_eq _ _ _, h]
  rfl

theorem readEAux_alookup {rd : Nat → Option (JVal × List Nat)} (f : String) :
    ∀ {d : List (String × HVal)} {es : List (String × JVal)} {S : List Nat},
    readEAux rd d = some (es, S) →
    (alookup d f = none ∧ alookup es f = none) ∨
    (∃ v, alookup d f = some (.imm v) ∧ notObj v = true ∧
      alookup es f = some v) ∨
    (∃ a g T, alookup d f = some (.href a) ∧ rd a = some (g, T) ∧
      alookup es f = some g) := by
  intro d
  induction d with
  | nil =>
      intro es S h
      simp [readEAux] at h
      obtain ⟨h1, _⟩ := h
      subst h1
      exact Or.inl ⟨rfl, rfl⟩
  | cons p rest ih =>
      intro es S h
      obtain ⟨k, hv⟩ := p
      cases hv with
      | imm v =>
          rw [readEAux] at h
          by_cases hno : notObj v = true
          · rw [if_pos hno] at h
            cases hrec : readEAux rd rest with
            | none => rw [hrec] at h; cases h
            | some r =>
                obtain ⟨es2, S2⟩ := r
                rw [hrec] at h
                dsimp only at h
                obtain ⟨h1, h2⟩ := Prod.mk.injEq .. ▸ Option.some.inj h
                subst h2
                rw [← h1]
                by_cases hk : k = f
                · exact Or.inr (Or.inl ⟨v, by simp [alookup, hk],
                    hno, by simp [alookup, hk]⟩)
                · rcases ih hrec with ⟨g1, g2⟩ | ⟨w, g1, g2, g3⟩ |
                    ⟨a, g, T, g1, g2, g3⟩
                  · exact Or.inl ⟨by simp [alookup, hk, g1],
                      by simp [alookup, hk, g2]⟩
                  · exact Or.inr (Or.inl ⟨w, by simp [alookup, hk, g1], g2,
                      by simp [alookup, hk, g3]⟩)
                  · exact Or.inr (Or.inr ⟨a, g, T, by simp [alookup, hk, g1],
                      g2, by simp [alookup, hk, g3]⟩)
          · rw [if_neg hno] at h; cases h
      | href a =>
          rw [readEAux] at h
          cases hr : rd a with
          | none => rw [hr] at h; cases h
          | some r1 =>
              obtain ⟨g1, S1⟩ := r1
              rw [hr] at h
              cases hrec : readEAux rd rest with
              | none => rw [hrec] at h; cases h
              | some r2 =>
                  obtain ⟨es2, S2⟩ := r2
                  rw [hrec] at h
                  dsimp only at h
                  obtain ⟨h1, h2⟩ := Prod.mk.injEq .. ▸ Option.some.inj h
                  subst h2
                  rw [← h1]
                  by_cases hk : k = f
                  · exact Or.inr (Or.inr ⟨a, g1, S1, by simp [alookup, hk],
                      hr, by simp [alookup, hk]⟩)
                  · rcases ih hrec with ⟨g1h, g2⟩ | ⟨w, g1h, g2, g3⟩ |
                      ⟨a2, g, T, g1h, g2, g3⟩
                    · exact Or.inl ⟨by simp [alookup, hk, g1h],
                        by simp [alookup, hk, g2]⟩
                    · exact Or.inr (Or.inl ⟨w, by simp [alookup, hk, g1h], g2,
                        by simp [alookup, hk, g3]⟩)
                    · exact Or.inr (Or.inr ⟨a2, g, T,
                        by simp [alookup, hk, g1h], g2,
                        by simp [alookup, hk, g3]⟩)

theorem readEAux_alookup_isSome {rd : Nat → Option (JVal × List Nat)}
    {d : List (String × HVal)} {es : List (String × JVal)} {S : List Nat}
    (h : readEAux rd d = some (es, S)) (f : String) :
    (alookup es f).isSome = (alookup d f).isSome := by
  rcases readEAux_alookup f h with ⟨h1, h2⟩ | ⟨v, h1, _, h2⟩ |
    ⟨a, g, T, h1, _, h2⟩ <;> rw [h1, h2] <;> rfl

theorem mem_reach_of_alookup_href {m : Nat} {st : Store} {f : String} :
    ∀ {d : List (String × HVal)} {es : List (String × JVal)} {S : List Nat}
      {a : Nat},
    readEAux (readD m st) d = some (es, S) →
    alookup d f = some (.href a) → a ∈ S := by
  intro d
  induction d with
  | nil => intro es S a _ hl; simp [alookup] at hl
  | cons p rest ih =>
      intro es S a h hl
      obtain ⟨k, hv⟩ := p
      cases hv with
      | imm v =>
          rw [readEAux] at h
          by_cases hno : notObj v = true
          · rw [if_pos hno] at h
            cases hrec : readEAux (readD m st) rest with
            | none => rw [hrec] at h; cases h
            | some r =>
                obtain ⟨es2, S2⟩ := r
                rw [hrec] at h
                dsimp only at h
                obtain ⟨h1, h2⟩ := Prod.mk.injEq .. ▸ Option.some.inj h
                subst h2
                rw [alookup] at hl
                by_cases hk : k = f
                · rw [if_pos hk] at hl; cases hl
                · rw [if_neg hk] at hl
                  exact ih hrec hl
          · rw [if_neg hno] at h; cases h
      | href b =>
          rw [readEAux] at h
          cases hr : readD m st b with
          | none => rw [hr] at h; cases h
          | some r1 =>
              obtain ⟨g1, S1⟩ := r1
              rw [hr] at h
              cases hrec : readEAux (readD m st) rest with
              | none => rw [hrec] at h; cases h
              | some r2 =>
                  obtain ⟨es2, S2⟩ := r2
                  rw [hrec] at h
                  dsimp only at h
                  obtain ⟨h1, h2⟩ := Prod.mk.injEq .. ▸ Option.some.inj h
                  subst h2
                  rw [alookup] at hl
                  by_cases hk : k = f
                  · rw [if_pos hk] at hl
                    have hab : a = b := by
                      cases Option.some.inj hl
                      rfl
                    subst hab
                    obtain ⟨k2, d2, es3, T, _, _, _, _, hS⟩ := readD_shape hr
                    apply List.mem_append.mpr
                    exact Or.inl (hS ▸ List.mem_cons_self _ _)
                  · rw [if_neg hk] at hl
                    exact List.mem_append.mpr (Or.inr (ih hrec hl))

theorem aset_append_of_none {α : Type} :
    ∀ {l : List (String × α)} {f : String}, alookup l f = none →
    ∀ v, aset l f v = l ++ [(f, v)] := by
  intro l
  induction l with
  | nil => intro f _ v; rfl
  | cons p rest ih =>
      intro f hl v
      obtain ⟨k, w⟩ := p
      rw [alookup] at hl
      by_cases hk : k = f
      · rw [if_pos hk] at hl; cases hl
      · rw [if_neg hk] at hl
        rw [aset, if_neg hk, ih hl]
        rfl

theorem readEAux_append {rd : Nat → Option (JVal × List Nat)} :
    ∀ {d1 d2 : List (String × HVal)} {es1 es2 : List (String × JVal)}
      {S1 S2 : List Nat},
    readEAux rd d1 = some (es1, S1) → readEAux rd d2 = some (es2, S2) →
    readEAux rd (d1 ++ d2) = some (es1 ++ es2, S1 ++ S2) := by
  intro d1
  induction d1 with
  | nil =>
      intro d2 es1 es2 S1 S2 h1 h2
      simp [readEAux] at h1
      obtain ⟨ha, hb⟩ := h1
      subst ha
      subst hb
      simpa using h2
  | cons p rest ih =>
      intro d2 es1 es2 S1 S2 h1 h2
      obtain ⟨k, hv⟩ := p
      cases hv with
      | imm v =>
          rw [readEAux] at h1
          by_cases hno : notObj v = true
          · rw [if_pos hno] at h1
            cases hrec : readEAux rd rest with
            | none => rw [hrec] at h1; cases h1
            | some r =>
                obtain ⟨esr, Sr⟩ := r
                rw [hrec] at h1
                dsimp only at h1
                obtain ⟨ha, hb⟩ := Prod.mk.injEq .. ▸ Option.some.inj h1
                subst hb
                rw [← ha]
                rw [List.cons_append, readEAux, if_pos hno, ih hrec h2]
                rfl
          · rw [if_neg hno] at h1; cases h1
      | href a =>
          rw [readEAux] at h1
          cases hr : rd a with
          | none => rw [hr] at h1; cases h1
          | some r1 =>
              obtain ⟨g1, T1⟩ := r1
              rw [hr] at h1
              cases hrec : readEAux rd rest with
              | none => rw [hrec] at h1; cases h1
              | some r2 =>
                  obtain ⟨esr, Sr⟩ := r2
                  rw [hrec] at h1
                  dsimp only at h1
                  obtain ⟨ha, hb⟩ := Prod.mk.injEq .. ▸ Option.some.inj h1
                  subst hb
                  rw [← ha]
                  rw [List.cons_append, readEAux, hr, ih hrec h2]
                  dsimp only
                  rw [List.append_assoc]
                  rfl

theorem readEAux_aset_imm {rd : Nat → Option (JVal × List Nat)} {f : String}
    {v : JVal} (hv : notObj v = true) :
    ∀ {d : List (String × HVal)} {es : List (String × JVal)} {S : List Nat},
    readEAux rd d = some (es, S) →
    ∃ S2, readEAux rd (aset d f (.imm v)) = some (aset es f v, S2) ∧
      S2.Sublist S := by
  intro d
  induction d with
  | nil =>
      intro es S h
      simp [readEAux] at h
      obtain ⟨ha, hb⟩ := h
      subst ha
      subst hb
      refine ⟨[], ?_, List.Sublist.refl _⟩
      rw [aset]
      rw [readEAux, if_pos hv]
      rfl
  | cons p rest ih =>
      intro es S h
      obtain ⟨k, hw⟩ := p
      cases hw with
      | imm w =>
          rw [readEAux] at h
          by_cases hno : notObj w = true
          · rw [if_pos hno] at h
            cases hrec : readEAux rd rest with
            | none => rw [hrec] at h; cases h
            | some r =>
                obtain ⟨esr, Sr⟩ := r
                rw [hrec] at h
                dsimp only at h
                obtain ⟨ha, hb⟩ := Prod.mk.injEq .. ▸ Option.some.inj h
                subst hb
                rw [← ha]
                by_cases hk : k = f
                · refine ⟨Sr, ?_, List.Sublist.refl _⟩
                  rw [aset, if_pos hk, aset, if_pos hk]
                  rw [readEAux, if_pos hv, hrec]
                · obtain ⟨S2, hread, hsub⟩ := ih hrec
                  refine ⟨S2, ?_, hsub⟩
                  rw [aset, if_neg hk, aset, if_neg hk]
                  rw [readEAux, if_pos hno, hread]
          · rw [if_neg hno] at h; cases h
      | href a =>
          rw [readEAux] at h
          cases hr : rd a with
          | none => rw [hr] at h; cases h
          | some r1 =>
              obtain ⟨g1, T1⟩ := r1
              rw [hr] at h
              cases hrec : readEAux rd rest with
              | none => rw [hrec] at h; cases h
              | some r2 =>
                  obtain ⟨esr, Sr⟩ := r2
                  rw [hrec] at h
                  dsimp only at h
                  obtain ⟨ha, hb⟩ := Prod.mk.injEq .. ▸ Option.some.inj h
                  subst hb
                  rw [← ha]
                  by_cases hk : k = f
                  · refine ⟨Sr, ?_, List.sublist_append_right _ _⟩
                    rw [aset, if_pos hk, aset, if_pos hk]
                    rw [readEAux, if_pos hv, hrec]
                  · obtain ⟨S2, hread, hsub⟩ := ih hrec
                    refine ⟨T1 ++ S2, ?_,
                      List.Sublist.append (List.Sublist.refl T1) hsub⟩
                    rw [aset, if_neg hk, aset, if_neg hk]
                    rw [readEAux, hr, hread]

theorem readD_write_at {m : Nat} {st : Store} {ia : Nat}
    {ins : List (String × JVal)} {Sia : List Nat} {field : String} {v : JVal}
    (h : readD m st ia = some (.obj ins, ia :: Sia))
    (hnd : (ia :: Sia).Nodup) (hv : notObj v = true) :
    ∃ S2, readD m (storeSet st ia field (.imm v)) ia =
        some (.obj (aset ins field v), ia :: S2) ∧ S2.Sublist Sia := by
  obtain ⟨k, dia, es, T, hm, hget, hre, hg, hS⟩ := readD_shape h
  have hes : es = ins := (JVal.obj.inj hg).symm
  have hT : T = Sia := ((List.cons.injEq .. ▸ hS : _ ∧ _).2).symm
  subst hes
  subst hT
  subst hm
  have hfr : readE k (storeSet st ia field (.imm v)) dia = some (es, T) := by
    refine readE_frame hre ?_
    intro b hb
    have hbne : b ≠ ia := by
      intro he
      subst he
      exact (List.nodup_cons.mp hnd).1 hb
    exact storeSet_get_ne st ia b field (.imm v) hbne
  obtain ⟨S2, hread, hsub⟩ := readEAux_aset_imm hv hfr
  refine ⟨S2, ?_, hsub⟩
  rw [readD, storeSet_get_self hget field (.imm v)]
  dsimp only
  rw [hread]

theorem readEAux_set_field {m : Nat} {st : Store} {ia : Nat}
    {f field : String} {v : JVal} {ins : List (String × JVal)} {T : List Nat}
    (hia : readD m st ia = some (.obj ins, ia :: T)) (hv : notObj v = true) :
    ∀ {d : List (String × HVal)} {es : List (String × JVal)} {S : List Nat},
    readEAux (readD m st) d = some (es, S) → S.Nodup →
    alookup d f = some (.href ia) →
    ∃ S2, readEAux (readD m (storeSet st ia field (.imm v))) d =
        some (aset es f (.obj (aset ins field v)), S2) ∧ S2.Sublist S := by
  intro d
  induction d with
  | nil => intro es S h hnd hl; simp [alookup] at hl
  | cons p rest ih =>
      intro es S h hnd hl
      obtain ⟨k, hw⟩ := p
      cases hw with
      | imm w =>
          rw [readEAux] at h
          by_cases hno : notObj w = true
          · rw [if_pos hno] at h
            cases hrec : readEAux (readD m st) rest with
            | none => rw [hrec] at h; cases h
            | some r =>
                obtain ⟨esr, Sr⟩ := r
                rw [hrec] at h
                dsimp only at h
                obtain ⟨ha, hb⟩ := Prod.mk.injEq .. ▸ Option.some.inj h
                subst hb
                rw [← ha]
                rw [alookup] at hl
                by_cases hk : k = f
                · rw [if_pos hk] at hl
                  cases Option.some.inj hl
                · rw [if_neg hk] at hl
                  obtain ⟨S2, hread, hsub⟩ := ih hrec hnd hl
                  refine ⟨S2, ?_, hsub⟩
                  rw [aset, if_neg hk]
                  rw [readEAux, if_pos hno, hread]
          · rw [if_neg hno] at h; cases h
      | href b =>
          rw [readEAux] at h
          cases hr : readD m st b with
          | none => rw [hr] at h; cases h
          | some r1 =>
              obtain ⟨g1, S1⟩ := r1
              rw [hr] at h
              cases hrec : readEAux (readD m st) rest with
              | none => rw [hrec] at h; cases h
              | some r2 =>
                  obtain ⟨esr, Sr⟩ := r2
                  rw [hrec] at h
                  dsimp only at h
                  obtain ⟨ha, hb⟩ := Prod.mk.injEq .. ▸ Option.some.inj h
                  subst hb
                  rw [← ha]
                  rw [alookup] at hl
                  by_cases hk : k = f
                  · rw [if_pos hk] at hl
                    have hbia : b = ia := HVal.href.inj (Option.some.inj hl)
                    subst hbia
                    have hdet := hr.symm.trans hia
                    obtain ⟨hg1, hS1⟩ := Prod.mk.injEq .. ▸ Option.some.inj hdet
                    subst hg1
                    subst hS1
                    have hnd3 := List.nodup_append.mp hnd
                    obtain ⟨S2h, hnew, hsubh⟩ :=
                      readD_write_at hia hnd3.1 hv
                    have hrest2 : readEAux
                        (readD m (storeSet st b field (.imm v))) rest =
                        some (esr, Sr) := by
                      refine readEAux_frameP
                        (fun a2 g2 S3 hr2 hP2 => readD_frame st _ m a2 g2 S3 hr2
                          (fun c hc => storeSet_get_ne st b c field (.imm v)
                            (hP2 c hc))) hrec ?_
                      intro c hc he
                      subst he
                      exact hnd3.2.2 (List.mem_cons_self _ _) hc
                    refine ⟨(b :: S2h) ++ Sr, ?_, ?_⟩
                    · rw [aset, if_pos hk]
                      rw [readEAux, hnew, hrest2]
                    · exact List.Sublist.append (List.Sublist.cons₂ b hsubh)
                        (List.Sublist.refl Sr)
                  · rw [if_neg hk] at hl
                    have hnd3 := List.nodup_append.mp hnd
                    have hiaSr : ia ∈ Sr := mem_reach_of_alookup_href hrec hl
                    obtain ⟨S2r, hread, hsub⟩ := ih hrec hnd3.2.1 hl
                    have hhead2 : readD m (storeSet st ia field (.imm v)) b =
                        some (g1, S1) := by
                      refine readD_frame st _ m b g1 S1 hr ?_
                      intro c hc
                      refine storeSet_get_ne st ia c field (.imm v) ?_
                      intro he
                      subst he
                      exact hnd3.2.2 hc hiaSr
                    refine ⟨S1 ++ S2r, ?_,
                      List.Sublist.append (List.Sublist.refl S1) hsub⟩
                    rw [aset, if_neg hk]
                    rw [readEAux, hhead2, hread]

theorem readEAux_bound {m : Nat} {st : Store} {d : List (String × HVal)}
    {es : List (String × JVal)} {S : List Nat}
    (h : readEAux (readD m st) d = some (es, S)) :
    ∀ b ∈ S, b < st.dicts.length := by
  intro b hb
  obtain ⟨d2, hd2⟩ := readEAux_valid
    (fun a g S2 hr => readD_valid m st a g S2 hr) h b hb
  exact get_lt_of_get? hd2

/-- The invariant carried while one node cell is being mutated: the cell
still holds entries that read back to the pure result, the reach stays
duplicate-free, grows only into fresh cells, the store only grows, and
every cell outside the node's original reach is untouched. -/
def NodeBundle (na : Nat) (st : Store) (S : List Nat) (st2 : Store)
    (es2 : List (String × JVal)) : Prop :=
  ∃ nes2 m2 S2,
    st2.dicts.get? na = some nes2 ∧
    readEAux (readD m2 st2) nes2 = some (es2, S2) ∧
    (na :: S2).Nodup ∧
    (∀ b ∈ S2, b ∈ S ∨ (st.dicts.length ≤ b ∧ b < st2.dicts.length)) ∧
    st.dicts.length ≤ st2.dicts.length ∧
    (∀ b, b ≠ na → b ∉ S → b < st.dicts.length →
      st2.dicts.get? b = st.dicts.get? b)

theorem NodeBundle_refl {na : Nat} {st : Store} {nes : List (String × HVal)}
    {m : Nat} {es : List (String × JVal)} {S : List Nat}
    (hna : st.dicts.get? na = some nes)
    (hE : readEAux (readD m st) nes = some (es, S))
    (hnd : (na :: S).Nodup) : NodeBundle na st S st es :=
  ⟨nes, m, S, hna, hE, hnd, fun b hb => Or.inl hb, Nat.le_refl _,
    fun _ _ _ _ => rfl⟩

theorem NodeBundle_comp {na : Nat} {st st1 st2 : Store} {S S1 : List Nat}
    {es2 : List (String × JVal)}
    (hlen1 : st.dicts.length ≤ st1.dicts.length)
    (hbnd1 : ∀ b ∈ S1, b ∈ S ∨ (st.dicts.length ≤ b ∧ b < st1.dicts.length))
    (hframe1 : ∀ b, b ≠ na → b ∉ S → b < st.dicts.length →
      st1.dicts.get? b = st.dicts.get? b)
    (h2 : NodeBundle na st1 S1 st2 es2) : NodeBundle na st S st2 es2 := by
  obtain ⟨nes2, m2, S2, hget2, hE2, hnd2, hbnd2, hlen2, hframe2⟩ := h2
  refine ⟨nes2, m2, S2, hget2, hE2, hnd2, ?_, Nat.le_trans hlen1 hlen2, ?_⟩
  · intro b hb
    rcases hbnd2 b hb with hb1 | ⟨hb1, hb2⟩
    · rcases hbnd1 b hb1 with hc | ⟨hc1, hc2⟩
      · exact Or.inl hc
      · exact Or.inr ⟨hc1, Nat.lt_of_lt_of_le hc2 hlen2⟩
    · exact Or.inr ⟨Nat.le_trans hlen1 hb1, hb2⟩
  · intro b hbna hbS hblt
    have hbS1 : b ∉ S1 := by
      intro hb1
      rcases hbnd1 b hb1 with hc | ⟨hc1, _⟩
      · exact hbS hc
      · exact Nat.not_lt.mpr hc1 hblt
    rw [hframe2 b hbna hbS1 (Nat.lt_of_lt_of_le hblt hlen1)]
    exact hframe1 b hbna hbS hblt

theorem class_type_media_corr {m : Nat} {st : Store}
    {nes : List (String × HVal)} {es : List (String × JVal)} {S : List Nat}
    (hE : readEAux (readD m st) nes = some (es, S)) :
    (match alookup nes "class_type" with
     | some (.imm (.str t)) => strInList t MEDIA_UPLOAD_NODE_TYPES
     | _ => false) = node_class_type_is_media es := by
  unfold node_class_type_is_media
  rcases readEAux_alookup "class_type" hE with ⟨h1, h2⟩ | ⟨v, h1, hno, h2⟩ |
    ⟨a, g, T, h1, hr, h2⟩
  · rw [h1, h2]
  · rw [h1, h2]
    cases v <;> rfl
  · rw [h1, h2]
    obtain ⟨k2, d2, es2, T2, _, _, _, hg, _⟩ := readD_shape hr
    subst hg
    rfl

theorem is_valid_nodeH_imm {st : Store} {v : JVal} (hv : notObj v = true) :
    is_valid_nodeH st (.imm v) = is_valid_node v := by
  cases v with
  | obj kvs => simp [notObj] at hv
  | null => rfl
  | bool b => rfl
  | num n => rfl
  | str s => rfl
  | arr xs => rfl

theorem is_valid_nodeH_href {m : Nat} {st : Store} {na : Nat}
    {nes : List (String × HVal)} {es : List (String × JVal)} {S : List Nat}
    (hna : st.dicts.get? na = some nes)
    (hE : readEAux (readD m st) nes = some (es, S)) :
    is_valid_nodeH st (.href na) = is_valid_node (.obj es) := by
  unfold is_valid_nodeH is_valid_node
  dsimp only
  rw [hna]
  dsimp only
  rcases readEAux_alookup "_meta" hE with ⟨h1, h2⟩ | ⟨v, h1, hno, h2⟩ |
    ⟨a, g, T, h1, hr, h2⟩
  · rw [h1, h2]
  · rw [h1, h2]
    rfl
  · rw [h1, h2]
    dsimp only
    obtain ⟨k2, md, mes, T2, _, hget, hre, hg, _⟩ := readD_shape hr
    subst hg
    unfold pyInH pyInStr
    dsimp only
    rw [hget]
    dsimp only
    rw [readEAux_alookup_isSome hre "title"]

theorem get_node_titleH_corr {m : Nat} {st : Store}
    {nes : List (String × HVal)} {es : List (String × JVal)} {S : List Nat}
    (hE : readEAux (readD m st) nes = some (es, S)) :
    get_node_titleH st nes = get_node_title es := by
  unfold get_node_titleH get_node_title
  rcases readEAux_alookup "_meta" hE with ⟨h1, h2⟩ | ⟨v, h1, hno, h2⟩ |
    ⟨a, g, T, h1, hr, h2⟩
  · rw [h1, h2]
  · rw [h1, h2]
    cases v with
    | obj kvs => simp [notObj] at hno
    | null => rfl
    | bool b => rfl
    | num n => rfl
    | str s => rfl
    | arr xs => rfl
  · rw [h1, h2]
    dsimp only
    obtain ⟨k2, md, mes, T2, _, hget, hre, hg, _⟩ := readD_shape hr
    subst hg
    rw [hget]
    dsimp only
    rcases readEAux_alookup "title" hre with ⟨g1, g2⟩ | ⟨w, g1, gno, g2⟩ |
      ⟨a2, g3, T3, g1, gr, g2⟩
    · rw [g1, g2]
    · rw [g1, g2]
      cases w <;> rfl
    · rw [g1, g2]
      obtain ⟨k3, d3, es3, T4, _, _, _, hg3, _⟩ := readD_shape gr
      subst hg3
      rfl

theorem set_node_paramH_sim {st : Store} {na : Nat}
    {nes : List (String × HVal)} {m : Nat} {es : List (String × JVal)}
    {S : List Nat} (hna : st.dicts.get? na = some nes)
    (hE : readEAux (readD m st) nes = some (es, S)) (hnd : (na :: S).Nodup)
    {field : String} {v : JVal} (hv : notObj v = true) :
    match set_node_param es field v with
    | .ok es2 => ∃ st2, set_node_paramH st na field v = .ok st2 ∧
        NodeBundle na st S st2 es2
    | .error e => set_node_paramH st na field v = .error e := by
  have hlt : na < st.dicts.length := get_lt_of_get? hna
  have hbS : ∀ b ∈ S, b < st.dicts.length := readEAux_bound hE
  have hgetD : st.dicts.getD na [] = nes := getD_nil_of_get? hna
  have hndS : S.Nodup := (List.nodup_cons.mp hnd).2
  have hnaS : na ∉ S := (List.nodup_cons.mp hnd).1
  rcases readEAux_alookup "inputs" hE with ⟨h1, h2⟩ | ⟨w, h1, hno, h2⟩ |
    ⟨ia, g, T, h1, hr, h2⟩
  · -- `inputs` absent: a fresh cell is allocated and linked in.
    have hpure : set_node_param es field v =
        .ok (aset es "inputs" (.obj [(field, v)])) := by
      unfold set_node_param
      rw [h2]
    rw [hpure]
    dsimp only
    have hheap : set_node_paramH st na field v =
        .ok (storeSet (storeSet ⟨st.dicts ++ [[]]⟩ na "inputs"
          (.href st.dicts.length)) st.dicts.length field (.imm v)) := by
      unfold set_node_paramH
      rw [hgetD, h1]
    refine ⟨_, hheap, ?_⟩
    have hnane : na ≠ st.dicts.length := Nat.ne_of_lt hlt
    have hget1 : (⟨st.dicts ++ [[]]⟩ : Store).dicts.get? na = some nes :=
      get_append_of_valid hna
    have hgetA : (storeSet ⟨st.dicts ++ [[]]⟩ na "inputs"
        (.href st.dicts.length)).dicts.get? na =
        some (aset nes "inputs" (.href st.dicts.length)) :=
      storeSet_get_self hget1 _ _
    have hcells : ∀ b, b ≠ na → b < st.dicts.length →
        (storeSet (storeSet ⟨st.dicts ++ [[]]⟩ na "inputs"
          (.href st.dicts.length)) st.dicts.length field
          (.imm v)).dicts.get? b = st.dicts.get? b := by
      intro b hbna hblt
      rw [storeSet_get_ne _ _ _ _ _ (Nat.ne_of_lt hblt)]
      rw [storeSet_get_ne _ _ _ _ _ hbna]
      exact List.get?_append hblt
    have hpart1 : readEAux (readD m (storeSet (storeSet ⟨st.dicts ++ [[]]⟩
        na "inputs" (.href st.dicts.length)) st.dicts.length field
        (.imm v))) nes = some (es, S) := by
      refine readEAux_frameP
        (fun a2 g2 S2 hr2 hP2 => readD_frame st _ m a2 g2 S2 hr2 hP2) hE ?_
      intro b hb
      exact hcells b (fun he => hnaS (he ▸ hb)) (hbS b hb)
    have hgetIa : (storeSet (storeSet ⟨st.dicts ++ [[]]⟩ na "inputs"
        (.href st.dicts.length)) st.dicts.length field
        (.imm v)).dicts.get? st.dicts.length = some [(field, .imm v)] := by
      have hg0 : (storeSet ⟨st.dicts ++ [[]]⟩ na "inputs"
          (.href st.dicts.length)).dicts.get? st.dicts.length =
          some ([] : List (String × HVal)) := by
        rw [storeSet_get_ne _ _ _ _ _ (fun he => hnane he.symm)]
        exact List.get?_concat_length _ _
      exact storeSet_get_self hg0 _ _
    have hreadIa : readD (m + 1) (storeSet (storeSet ⟨st.dicts ++ [[]]⟩
        na "inputs" (.href st.dicts.length)) st.dicts.length field
        (.imm v)) st.dicts.length = some (.obj [(field, v)],
        [st.dicts.length]) := by
      rw [readD, hgetIa]
      dsimp only
      rw [readEAux, if_pos hv]
      rfl
    have hpart2 : readEAux (readD (m + 1) (storeSet (storeSet
        ⟨st.dicts ++ [[]]⟩ na "inputs" (.href st.dicts.length))
        st.dicts.length field (.imm v)))
        [("inputs", .href st.dicts.length)] =
        some ([("inputs", .obj [(field, v)])], [st.dicts.length]) := by
      rw [readEAux, hreadIa]
      rfl
    have hfull := readEAux_append
      (readEAux_mono (fun a2 r2 hr2 => readD_mono m _ a2 r2 hr2) hpart1)
      hpart2
    have hlenB : (storeSet (storeSet ⟨st.dicts ++ [[]]⟩ na "inputs"
        (.href st.dicts.length)) st.dicts.length field
        (.imm v)).dicts.length = st.dicts.length + 1 := by
      rw [storeSet_length, storeSet_length]
      simp
    refine ⟨aset nes "inputs" (.href st.dicts.length), m + 1,
      S ++ [st.dicts.length], ?_, ?_, ?_, ?_, ?_, ?_⟩
    · rw [storeSet_get_ne _ _ _ _ _ hnane]
      exact hgetA
    · rw [aset_append_of_none h1, aset_append_of_none h2]
      exact hfull
    · rw [List.nodup_cons]
      refine ⟨?_, ?_⟩
      · intro hmem
        rcases List.mem_append.mp hmem with hc | hc
        · exact hnaS hc
        · exact hnane (List.mem_singleton.mp hc)
      · rw [List.nodup_append]
        refine ⟨hndS, List.nodup_singleton _, ?_⟩
        intro b hb hb2
        exact Nat.ne_of_lt (hbS b hb) (List.mem_singleton.mp hb2)
    · intro b hb
      rcases List.mem_append.mp hb with hc | hc
      · exact Or.inl hc
      · rw [List.mem_singleton.mp hc]
        rw [hlenB]
        exact Or.inr ⟨Nat.le_refl _, Nat.lt_succ_self _⟩
    · rw [hlenB]
      exact Nat.le_succ _
    · intro b hbna hbS2 hblt
      exact hcells b hbna hblt
  · -- `inputs` present but not a dict: both sides raise.
    have hheap : set_node_paramH st na field v = .error .typeError := by
      unfold set_node_paramH
      rw [hgetD, h1]
    have hpure : set_node_param es field v = .error .typeError := by
      unfold set_node_param
      rw [h2]
      cases w with
      | obj kvs => simp [notObj] at hno
      | null => rfl
      | bool b => rfl
      | num n => rfl
      | str s => rfl
      | arr xs => rfl
    rw [hpure]
    exact hheap
  · -- `inputs` is a dict cell: overwrite one field through the reference.
    obtain ⟨k2, dia, ins, T2, _, hgetia, hreia, hg, hT⟩ := readD_shape hr
    subst hg
    subst hT
    have hiaS : ia ∈ S := mem_reach_of_alookup_href hE h1
    have hialt : ia < st.dicts.length := hbS ia hiaS
    have hiana : ia ≠ na := fun he => hnaS (he ▸ hiaS)
    have hpure : set_node_param es field v =
        .ok (aset es "inputs" (.obj (aset ins field v))) := by
      unfold set_node_param
      rw [h2]
    rw [hpure]
    dsimp only
    have hheap : set_node_paramH st na field v =
        .ok (storeSet st ia field (.imm v)) := by
      unfold set_node_paramH
      rw [hgetD, h1]
    refine ⟨_, hheap, ?_⟩
    obtain ⟨S2, hread, hsub⟩ := readEAux_set_field hr hv hE hndS h1
    refine ⟨nes, m, S2, ?_, hread, ?_, ?_, ?_, ?_⟩
    · rw [storeSet_get_ne _ _ _ _ _ (fun he => hiana he.symm)]
      exact hna
    · rw [List.nodup_cons]
      exact ⟨fun hc => hnaS (hsub.subset hc), List.Nodup.sublist hsub hndS⟩
    · intro b hb
      exact Or.inl (hsub.subset hb)
    · rw [storeSet_length]
    · intro b hbna hbS2 hblt
      refine storeSet_get_ne _ _ _ _ _ ?_
      intro he
      exact hbS2 (he ▸ hiaS)

theorem process_param_markerH_sim {resolver : Resolver}
    {params : List (String × JVal)}
    (hparams : ∀ kv ∈ params, notObj kv.snd = true)
    {st : Store} {na : Nat} {nes : List (String × HVal)} {m : Nat}
    {es : List (String × JVal)} {S : List Nat}
    (hna : st.dicts.get? na = some nes)
    (hE : readEAux (readD m st) nes = some (es, S)) (hnd : (na :: S).Nodup)
    (var_spec : String) :
    match process_param_marker resolver es var_spec params with
    | .ok es2 => ∃ st2,
        process_param_markerH resolver st na var_spec params = .ok st2 ∧
        NodeBundle na st S st2 es2
    | .error e =>
        process_param_markerH resolver st na var_spec params = .error e := by
  have hgetD : st.dicts.getD na [] = nes := getD_nil_of_get? hna
  unfold process_param_marker process_param_markerH
  by_cases hdot : (!pyContainsChar var_spec '.') = true
  · rw [if_pos hdot, if_pos hdot]
    exact ⟨st, rfl, NodeBundle_refl hna hE hnd⟩
  · rw [if_neg hdot, if_neg hdot]
    cases halo : alookup params (pySplitDot1 var_spec).1 with
    | none =>
        dsimp only
        exact ⟨st, rfl, NodeBundle_refl hna hE hnd⟩
    | some pv =>
        dsimp only
        have hpv : notObj pv = true := hparams _ (alookup_mem halo)
        rw [hgetD, class_type_media_corr hE]
        by_cases hmedia : node_class_type_is_media es = true
        · rw [if_pos hmedia, if_pos hmedia]
          unfold handle_media_upload
          cases pv with
          | str s =>
              dsimp only
              by_cases hurl :
                  (pyStartsWith s "http://" || pyStartsWith s "https://") =
                    true
              · rw [if_pos hurl, if_pos hurl]
                cases hres : resolver s with
                | ok name =>
                    dsimp only
                    exact set_node_paramH_sim hna hE hnd rfl
                | error e =>
                    dsimp only
              · rw [if_neg hurl, if_neg hurl]
                exact set_node_paramH_sim hna hE hnd rfl
          | null => exact set_node_paramH_sim hna hE hnd rfl
          | bool b => exact set_node_paramH_sim hna hE hnd rfl
          | num n => exact set_node_paramH_sim hna hE hnd rfl
          | arr xs => exact set_node_paramH_sim hna hE hnd rfl
          | obj kvs => simp [notObj] at hpv
        · rw [if_neg hmedia, if_neg hmedia]
          exact set_node_paramH_sim hna hE hnd hpv

theorem process_partsH_cons (resolver : Resolver)
    (params : List (String × JVal)) (part : String) (rest : List String)
    (st : Store) (na : Nat) :
    process_partsH resolver params (part :: rest) st na =
      (if pyStartsWith (pyStrip part) "$" then
         match process_param_markerH resolver st na
             (pyDropFirst (pyStrip part)) params with
         | .ok st2 => process_partsH resolver params rest st2 na
         | .error e => .error e
       else process_partsH resolver params rest st na) := rfl

theorem apply_nodesH_cons (resolver : Resolver)
    (params : List (String × JVal)) (nid : String) (hv : HVal)
    (rest : List (String × HVal)) (st : Store) :
    apply_nodesH resolver params ((nid, hv) :: rest) st =
      (match is_valid_nodeH st hv with
       | .error e => .error e
       | .ok true =>
           match hv with
           | .href na =>
               match process_node_paramsH resolver st na params with
               | .ok st2 => apply_nodesH resolver params rest st2
               | .error e => .error e
           | .imm _ => .error .typeError
       | .ok false => apply_nodesH resolver params rest st) := rfl

theorem process_partsH_sim {resolver : Resolver}
    {params : List (String × JVal)}
    (hparams : ∀ kv ∈ params, notObj kv.snd = true) :
    ∀ (parts : List String) {st : Store} {na : Nat}
      {nes : List (String × HVal)} {m : Nat} {es : List (String × JVal)}
      {S : List Nat},
    st.dicts.get? na = some nes →
    readEAux (readD m st) nes = some (es, S) → (na :: S).Nodup →
    match process_parts resolver params parts es with
    | .ok es2 => ∃ st2,
        process_partsH resolver params parts st na = .ok st2 ∧
        NodeBundle na st S st2 es2
    | .error e => process_partsH resolver params parts st na = .error e := by
  intro parts
  induction parts with
  | nil =>
      intro st na nes m es S hna hE hnd
      exact ⟨st, rfl, NodeBundle_refl hna hE hnd⟩
  | cons part rest ih =>
      intro st na nes m es S hna hE hnd
      rw [process_parts_cons, process_partsH_cons]
      by_cases hdol : pyStartsWith (pyStrip part) "$" = true
      · rw [if_pos hdol, if_pos hdol]
        have hPM := @process_param_markerH_sim resolver params hparams st na
          nes m es S hna hE hnd (pyDropFirst (pyStrip part))
        cases hpm : process_param_marker resolver es
            (pyDropFirst (pyStrip part)) params with
        | error e =>
            rw [hpm] at hPM
            dsimp only at hPM
            rw [hPM]
        | ok es1 =>
            rw [hpm] at hPM
            dsimp only at hPM
            obtain ⟨st1, hheap1, hB1⟩ := hPM
            rw [hheap1]
            dsimp only
            obtain ⟨nes1, m1, S1, hget1, hE1, hnd1, hbnd1, hlen1, hframe1⟩ :=
              hB1
            have hrest := ih hget1 hE1 hnd1
            cases hrec : process_parts resolver params rest es1 with
            | error e =>
                rw [hrec] at hrest
                dsimp only at hrest
                exact hrest
            | ok es2 =>
                rw [hrec] at hrest
                dsimp only at hrest
                obtain ⟨st2, hheap2, hB2⟩ := hrest
                exact ⟨st2, hheap2, NodeBundle_comp hlen1 hbnd1 hframe1 hB2⟩
      · rw [if_neg hdol, if_neg hdol]
        exact ih hna hE hnd

theorem process_node_paramsH_sim {resolver : Resolver}
    {params : List (String × JVal)}
    (hparams : ∀ kv ∈ params, notObj kv.snd = true)
    {st : Store} {na : Nat} {nes : List (String × HVal)} {m : Nat}
    {es : List (String × JVal)} {S : List Nat}
    (hna : st.dicts.get? na = some nes)
    (hE : readEAux (readD m st) nes = some (es, S))
    (hnd : (na :: S).Nodup) :
    match process_node_params resolver es params with
    | .ok es2 => ∃ st2,
        process_node_paramsH resolver st na params = .ok st2 ∧
        NodeBundle na st S st2 es2
    | .error e => process_node_paramsH resolver st na params = .error e := by
  have hgetD : st.dicts.getD na [] = nes := getD_nil_of_get? hna
  unfold process_node_params process_node_paramsH
  rw [hgetD, get_node_titleH_corr hE]
  cases htl : get_node_title es with
  | error e => dsimp only
  | ok title =>
      dsimp only
      exact process_partsH_sim hparams (pySplitChar title ',') hna hE hnd

theorem apply_nodesH_sim {resolver : Resolver} {params : List (String × JVal)}
    (hparams : ∀ kv ∈ params, notObj kv.snd = true) :
    ∀ (d : List (String × HVal)) (st : Store) (m : Nat)
      (es : List (String × JVal)) (S : List Nat),
    readEAux (readD m st) d = some (es, S) → S.Nodup →
    match apply_nodes resolver params es with
    | .ok es2 => ∃ st2 m2 S2,
        apply_nodesH resolver params d st = .ok st2 ∧
        readEAux (readD m2 st2) d = some (es2, S2) ∧
        (∀ b ∈ S2, b ∈ S ∨ st.dicts.length ≤ b) ∧
        st.dicts.length ≤ st2.dicts.length ∧
        (∀ b, b ∉ S → b < st.dicts.length →
          st2.dicts.get? b = st.dicts.get? b)
    | .error e => apply_nodesH resolver params d st = .error e := by
  intro d
  induction d with
  | nil =>
      intro st m es S h hnd
      simp [readEAux] at h
      obtain ⟨h1, h2⟩ := h
      subst h1
      subst h2
      exact ⟨st, m, [], rfl, rfl, fun b hb => absurd hb (List.not_mem_nil b),
        Nat.le_refl _, fun _ _ _ => rfl⟩
  | cons p rest ih =>
      intro st m es S h hnd
      obtain ⟨k, hv⟩ := p
      cases hv with
      | imm v =>
          rw [readEAux] at h
          by_cases hno : notObj v = true
          · rw [if_pos hno] at h
            cases hrec : readEAux (readD m st) rest with
            | none => rw [hrec] at h; cases h
            | some r =>
                obtain ⟨esr, Sr⟩ := r
                rw [hrec] at h
                dsimp only at h
                obtain ⟨ha, hb⟩ := Prod.mk.injEq .. ▸ Option.some.inj h
                subst hb
                rw [← ha]
                rw [apply_nodes_cons, apply_nodesH_cons]
                rw [is_valid_nodeH_imm hno]
                have hvalid : is_valid_node v = .ok false := by
                  cases v with
                  | obj kvs => simp [notObj] at hno
                  | null => rfl
                  | bool b => rfl
                  | num n => rfl
                  | str s => rfl
                  | arr xs => rfl
                rw [hvalid]
                dsimp only
                rw [if_neg Bool.false_ne_true]
                dsimp only
                have hrest := ih st m esr Sr hrec hnd
                cases hrecp : apply_nodes resolver params esr with
                | error e =>
                    rw [hrecp] at hrest
                    dsimp only at hrest
                    exact hrest
                | ok esr2 =>
                    rw [hrecp] at hrest
                    dsimp only at hrest
                    obtain ⟨st2, m2, S2, hheap, hread, hbnd, hlen, hframe⟩ :=
                      hrest
                    refine ⟨st2, m2, S2, hheap, ?_, hbnd, hlen, hframe⟩
                    rw [readEAux, if_pos hno, hread]
          · rw [if_neg hno] at h; cases h
      | href na =>
          rw [readEAux] at h
          cases hr : readD m st na with
          | none => rw [hr] at h; cases h
          | some r1 =>
              obtain ⟨g, Sna⟩ := r1
              rw [hr] at h
              cases hrec : readEAux (readD m st) rest with
              | none => rw [hrec] at h; cases h
              | some r2 =>
                  obtain ⟨esr, Sr⟩ := r2
                  rw [hrec] at h
                  dsimp only at h
                  obtain ⟨ha, hb⟩ := Prod.mk.injEq .. ▸ Option.some.inj h
                  subst hb
                  rw [← ha]
                  obtain ⟨mk, nnes, nEs, Tna, hm, hget, hre, hg, hS⟩ :=
                    readD_shape hr
                  subst hg
                  subst hS
                  subst hm
                  rw [apply_nodes_cons, apply_nodesH_cons]
                  rw [is_valid_nodeH_href hget hre]
                  have hndq := List.nodup_append.mp hnd
                  have hndna : (na :: Tna).Nodup := hndq.1
                  have hndSr : Sr.Nodup := hndq.2.1
                  have hdisj := hndq.2.2
                  have hbound_head : ∀ b ∈ na :: Tna, b < st.dicts.length := by
                    intro b hb
                    obtain ⟨d2, hd2⟩ := readD_valid _ st na _ _ hr b hb
                    exact get_lt_of_get? hd2
                  have hbound_rest : ∀ b ∈ Sr, b < st.dicts.length :=
                    readEAux_bound hrec
                  have hnaSr : na ∉ Sr :=
                    fun hc => hdisj (List.mem_cons_self _ _) hc
                  cases hval : is_valid_node (.obj nEs) with
                  | error e =>
                      dsimp only
                  | ok valid =>
                      dsimp only
                      cases valid with
                      | false =>
                          rw [if_neg Bool.false_ne_true]
                          dsimp only
                          have hrest := ih st (mk + 1) esr Sr hrec hndSr
                          cases hrecp : apply_nodes resolver params esr with
                          | error e =>
                              rw [hrecp] at hrest
                              dsimp only at hrest
                              exact hrest
                          | ok esr2 =>
                              rw [hrecp] at hrest
                              dsimp only at hrest
                              obtain ⟨st2, m2, S2, hheap, hread, hbnd, hlen,
                                hframe⟩ := hrest
                              have hhead2 : readD (mk + 1) st2 na =
                                  some (.obj nEs, na :: Tna) := by
                                refine readD_frame st st2 _ na _ _ hr ?_
                                intro c hc
                                exact hframe c (fun hc2 => hdisj hc hc2)
                                  (hbound_head c hc)
                              refine ⟨st2, max (mk + 1) m2,
                                (na :: Tna) ++ S2, hheap, ?_, ?_, hlen, ?_⟩
                              · rw [readEAux,
                                  readD_mono_le (Nat.le_max_left _ _) hhead2,
                                  readEAux_mono (fun a2 r3 hr3 =>
                                    readD_mono_le (Nat.le_max_right _ _) hr3)
                                    hread]
                              · intro b hb
                                rcases List.mem_append.mp hb with hc | hc
                                · exact Or.inl (List.mem_append.mpr
                                    (Or.inl hc))
                                · rcases hbnd b hc with hc2 | hc2
                                  · exact Or.inl (List.mem_append.mpr
                                      (Or.inr hc2))
                                  · exact Or.inr hc2
                              · intro b hbS hblt
                                exact hframe b
                                  (fun hc => hbS (List.mem_append.mpr
                                    (Or.inr hc))) hblt
                      | true =>
                          rw [if_pos rfl]
                          dsimp only
                          have hPN := @process_node_paramsH_sim resolver
                            params hparams st na nnes mk nEs Tna hget hre
                            hndna
                          cases Hpn : process_node_params resolver nEs
                              params with
                          | error e =>
                              rw [Hpn] at hPN
                              dsimp only at hPN
                              rw [hPN]
                          | ok nEs2 =>
                              rw [Hpn] at hPN
                              dsimp only at hPN
                              obtain ⟨st1, hheap1, hB1⟩ := hPN
                              rw [hheap1]
                              dsimp only
                              obtain ⟨nes1, m1, S1, hget1, hE1, hnd1, hbnd1,
                                hlen1, hframe1⟩ := hB1
                              have hrec1 : readEAux (readD (mk + 1) st1)
                                  rest = some (esr, Sr) := by
                                refine readEAux_frameP (fun a2 g2 S3 hr2
                                  hP2 => readD_frame st st1 _ a2 g2 S3 hr2
                                    hP2) hrec ?_
                                intro c hc
                                refine hframe1 c ?_ ?_ (hbound_rest c hc)
                                · intro he
                                  subst he
                                  exact hnaSr hc
                                · intro hc2
                                  exact hdisj (List.mem_cons_of_mem _ hc2) hc
                              have hrest := ih st1 (mk + 1) esr Sr hrec1
                                hndSr
                              cases hrecp : apply_nodes resolver params
                                  esr with
                              | error e =>
                                  rw [hrecp] at hrest
                                  dsimp only at hrest
                                  exact hrest
                              | ok esr2 =>
                                  rw [hrecp] at hrest
                                  dsimp only at hrest
                                  obtain ⟨st2, m2, S2r, hheap2, hread2,
                                    hbnd2, hlen2, hframe2⟩ := hrest
                                  have hS1st : ∀ b ∈ S1, b ∉ Sr ∧
                                      b < st1.dicts.length := by
                                    intro b hb
                                    rcases hbnd1 b hb with hc | ⟨hc1, hc2⟩
                                    · exact ⟨fun hc2 => hdisj
                                        (List.mem_cons_of_mem _ hc) hc2,
                                        Nat.lt_of_lt_of_le
                                          (hbound_head b
                                            (List.mem_cons_of_mem _ hc))
                                          hlen1⟩
                                    · exact ⟨fun hc3 => Nat.not_lt.mpr hc1
                                        (hbound_rest b hc3), hc2⟩
                                  have hget_na2 : st2.dicts.get? na =
                                      some nes1 := by
                                    rw [hframe2 na hnaSr
                                      (Nat.lt_of_lt_of_le
                                        (hbound_head na
                                          (List.mem_cons_self _ _)) hlen1)]
                                    exact hget1
                                  have hE12 : readEAux (readD m1 st2) nes1 =
                                      some (nEs2, S1) := by
                                    refine readEAux_frameP (fun a2 g2 S3 hr2
                                      hP2 => readD_frame st1 st2 _ a2 g2 S3
                                        hr2 hP2) hE1 ?_
                                    intro c hc
                                    exact hframe2 c (hS1st c hc).1
                                      (hS1st c hc).2
                                  have hhead2 : readD (m1 + 1) st2 na =
                                      some (.obj nEs2, na :: S1) := by
                                    rw [readD, hget_na2]
                                    dsimp only
                                    rw [hE12]
                                  refine ⟨st2, max (m1 + 1) m2,
                                    (na :: S1) ++ S2r, hheap2, ?_, ?_,
                                    Nat.le_trans hlen1 hlen2, ?_⟩
                                  · rw [readEAux,
                                      readD_mono_le (Nat.le_max_left _ _)
                                        hhead2,
                                      readEAux_mono (fun a2 r3 hr3 =>
                                        readD_mono_le
                                          (Nat.le_max_right _ _) hr3)
                                        hread2]
                                  · intro b hb
                                    rcases List.mem_append.mp hb with hc | hc
                                    · rcases List.mem_cons.mp hc with
                                        hc2 | hc2
                                      · exact Or.inl (List.mem_append.mpr
                                          (Or.inl (hc2 ▸
                                            List.mem_cons_self _ _)))
                                      · rcases hbnd1 b hc2 with hc3 |
                                          ⟨hc3, _⟩
                                        · exact Or.inl (List.mem_append.mpr
                                            (Or.inl
                                              (List.mem_cons_of_mem _ hc3)))
                                        · exact Or.inr hc3
                                    · rcases hbnd2 b hc with hc2 | hc2
                                      · exact Or.inl (List.mem_append.mpr
                                          (Or.inr hc2))
                                      · exact Or.inr
                                          (Nat.le_trans hlen1 hc2)
                                  · intro b hbS hblt
                                    have hb1 : st1.dicts.get? b =
                                        st.dicts.get? b := by
                                      refine hframe1 b ?_ ?_ hblt
                                      · intro he
                                        subst he
                                        exact hbS (List.mem_append.mpr
                                          (Or.inl (List.mem_cons_self _ _)))
                                      · intro hc
                                        exact hbS (List.mem_append.mpr
                                          (Or.inl
                                            (List.mem_cons_of_mem _ hc)))
                                    rw [← hb1]
                                    refine hframe2 b ?_
                                      (Nat.lt_of_lt_of_le hblt hlen1)
                                    intro hc
                                    exact hbS (List.mem_append.mpr
                                      (Or.inr hc))

/-- C9: parameter binding is a pure transform on the graph value.
`_apply_params_to_workflow` deep-copies the workflow and mutates only the
copy: modelled on an explicit heap (`apply_params_to_workflow_heap`,
parameter values being non-dict values as delivered in a request body),
a successful run leaves every cell of the caller's graph untouched — the
original workflow still reads back to exactly the same value — and returns
a freshly allocated graph, sharing no cell with the original, whose value
is exactly the pure transform `apply_params_to_workflow` of the input
value; a failing run raises the same error as the pure transform. -/
theorem apply_params_heap_pure {n : Nat} {st : Store} {wa : Nat}
    {g : JVal} {S : List Nat} {resolver : Resolver}
    {params : List (String × JVal)} {res : Res (Store × Nat)}
    (hread : readD n st wa = some (g, S))
    (hparams : ∀ kv ∈ params, notObj kv.snd = true)
    (hrun : apply_params_to_workflow_heap resolver n st wa params =
      some res) :
    (∀ st2 wa2, res = .ok (st2, wa2) →
      readD n st2 wa = some (g, S) ∧
      st.dicts.length ≤ wa2 ∧
      ∃ es2 m2 S2,
        apply_params_to_workflow resolver g params = .ok (.obj es2) ∧
        readD m2 st2 wa2 = some (.obj es2, wa2 :: S2) ∧
        ∀ b ∈ wa2 :: S2, b ∉ S) ∧
    (∀ e, res = .error e →
      apply_params_to_workflow resolver g params = .error e) := by
  have hSbound : ∀ b ∈ S, b < st.dicts.length := by
    intro b hb
    obtain ⟨d2, hd2⟩ := readD_valid n st wa g S hread b hb
    exact get_lt_of_get? hd2
  unfold apply_params_to_workflow_heap at hrun
  cases hcp : copyD n st wa with
  | none => rw [hcp] at hrun; cases hrun
  | some r1 =>
      obtain ⟨st1, wa2c⟩ := r1
      rw [hcp] at hrun
      dsimp only at hrun
      obtain ⟨news, S2c, hext, hge, hlt1, hread1, hbnd1, hnd1⟩ :=
        copyD_correct n st wa wa2c st1 g S hcp hread
      have hstlen : st.dicts.length ≤ st1.dicts.length := by
        rw [hext, List.length_append]
        exact Nat.le_add_right _ _
      obtain ⟨kk, dC, esC, S2c2, hn, hgetC, hreC, hgC, hSC⟩ :=
        readD_shape hread1
      have hS2eq : S2c = S2c2 := (List.cons.injEq .. ▸ hSC : _ ∧ _).2
      subst hS2eq
      subst hgC
      rw [hgetC] at hrun
      dsimp only at hrun
      have hres := Option.some.inj hrun
      have hndS2c : S2c.Nodup := (List.nodup_cons.mp hnd1).2
      have hwa2S2c : wa2c ∉ S2c := (List.nodup_cons.mp hnd1).1
      have hWL := @apply_nodesH_sim resolver params hparams dC st1 kk esC
        S2c hreC hndS2c
      have hpure : apply_params_to_workflow resolver (.obj esC) params =
          (apply_nodes resolver params esC).map .obj := rfl
      cases hpn : apply_nodes resolver params esC with
      | ok es2 =>
          rw [hpn] at hWL
          dsimp only at hWL
          obtain ⟨st2v, m2, S2v, hheap, hreadv, hbndv, hlenv, hframev⟩ :=
            hWL
          rw [hheap] at hres
          simp only [Except.map] at hres
          constructor
          · intro st2 wa2 heq
            have hpair := Except.ok.inj (hres.trans heq)
            obtain ⟨hst2, hwa2⟩ := Prod.mk.injEq .. ▸ hpair
            subst hst2
            subst hwa2
            have hScells : ∀ b ∈ S, st2v.dicts.get? b = st.dicts.get? b := by
              intro b hb
              have hblt := hSbound b hb
              have h1 : st1.dicts.get? b = st.dicts.get? b := by
                rw [hext]
                exact List.get?_append hblt
              rw [← h1]
              refine hframev b ?_ (Nat.lt_of_lt_of_le hblt hstlen)
              intro hc
              exact Nat.not_lt.mpr (hbnd1 b hc).1 hblt
            refine ⟨readD_frame st st2v n wa _ _ hread hScells, hge,
              es2, m2 + 1, S2v, ?_, ?_, ?_⟩
            · rw [hpure, hpn]
              rfl
            · rw [readD]
              have hgC2 : st2v.dicts.get? wa2c = some dC := by
                rw [hframev wa2c hwa2S2c hlt1]
                exact hgetC
              rw [hgC2]
              dsimp only
              rw [hreadv]
            · intro b hb
              intro hbS
              have hblt := hSbound b hbS
              rcases List.mem_cons.mp hb with hc | hc
              · subst hc
                exact Nat.not_lt.mpr hge hblt
              · rcases hbndv b hc with hc2 | hc2
                · exact Nat.not_lt.mpr (hbnd1 b hc2).1 hblt
                · exact Nat.not_lt.mpr (Nat.le_trans hstlen hc2) hblt
          · intro e heq
            cases hres.trans heq
      | error e0 =>
          rw [hpn] at hWL
          dsimp only at hWL
          rw [hWL] at hres
          simp only [Except.map] at hres
          constructor
          · intro st2 wa2 heq
            cases hres.trans heq
          · intro e heq
            have he : e0 = e := Except.error.inj (hres.trans heq)
            subst he
            rw [hpure, hpn]
            rfl

/-- A tiny linear workflow on the heap: the top dict at cell 0 holds one
node (cell 1) whose `_meta` (cell 2) titles it `sampler, $p.seed` and
whose `inputs` (cell 3) hold `seed = 1`. -/
def stW9 : Store := ⟨[
  [("1", .href 1)],
  [("class_type", .imm (.str "KSampler")), ("_meta", .href 2),
   ("inputs", .href 3)],
  [("title", .imm (.str "sampler, $p.seed"))],
  [("seed", .imm (.num 1))]]⟩

/-- The value the workflow at `stW9` cell 0 denotes. -/
def gW9 : JVal := .obj [("1", .obj [("class_type", .str "KSampler"),
  ("_meta", .obj [("title", .str "sampler, $p.seed")]),
  ("inputs", .obj [("seed", .num 1)])])]

/-- The resolver is never consulted for a non-media node. -/
def resolverW9 : Resolver := fun _ => .error "offline"

def paramsW9 : List (String × JVal) := [("p", .num 7)]

/-- The store after binding: cells 4-7 are the deep copy (title, inputs,
node, top), and the copied `inputs` cell 5 holds `seed = 7`; cells 0-3 of
the original are untouched. -/
def st2W9 : Store := ⟨[
  [("1", .href 1)],
  [("class_type", .imm (.str "KSampler")), ("_meta", .href 2),
   ("inputs", .href 3)],
  [("title", .imm (.str "sampler, $p.seed"))],
  [("seed", .imm (.num 1))],
  [("title", .imm (.str "sampler, $p.seed"))],
  [("seed", .imm (.num 7))],
  [("class_type", .imm (.str "KSampler")), ("_meta", .href 4),
   ("inputs", .href 5)],
  [("1", .href 6)]]⟩

theorem apply_params_heap_pure_inst :
    readD 4 st2W9 0 = some (gW9, [0, 1, 2, 3]) ∧
    stW9.dicts.length ≤ 7 ∧
    ∃ es2 m2 S2,
      apply_params_to_workflow resolverW9 gW9 paramsW9 = .ok (.obj es2) ∧
      readD m2 st2W9 7 = some (.obj es2, 7 :: S2) ∧
      ∀ b ∈ 7 :: S2, b ∉ [0, 1, 2, 3] :=
  (apply_params_heap_pure
    (show readD 4 stW9 0 = some (gW9, [0, 1, 2, 3]) from rfl)
    (by
      intro kv hkv
      cases List.mem_singleton.mp hkv
      rfl)
    (show apply_params_to_workflow_heap resolverW9 4 stW9 0 paramsW9 =
      some (.ok (st2W9, 7)) from rfl)).1 st2W9 7 rfl
